import Mathlib

/-!
Verification development for the `simulacion_mesa` repository: a discrete-time
M/M/n queue simulation written with the `mesa` agent framework, in three
near-duplicate variants (`implementacion.py`, `grafica.py`, `implementacion2.py`).

Shallow embedding conventions:
* `schedule.time` is a natural-number tick counter.
* The two random sources are passed as explicit oracles:
  `u : ℕ → ℚ` gives the value of `random.random()` drawn at the start of
  tick `t` (the arrival draw), and `dur : ℕ → ℕ → ℚ` gives the value drawn by
  `random.expovariate(1 / mean_service_time)` when server number `si`
  dispatches a customer at tick `t` (a server dispatches at most once per
  tick, so `(si, t)` identifies the call site uniquely).
* Customers are kept in a store (`customers : List Customer`) in creation
  order; the queue and the servers refer to customers by their store index.
  In `implementacion.py` the store index coincides with the `unique_id`
  passed to `CustomerAgent` (both equal the number of previously created
  customers).
* Modelled from the spec: the `mesa` framework (`Agent`, `Model`,
  `SimultaneousActivation`, `MultiGrid`) is a third-party dependency that is
  not part of this repository.  Per spec sections 2, 4.2 and 5 the scheduler
  advances an integer tick counter by one per `schedule.step()`, agents are
  stepped in insertion order (the servers, created at model construction,
  before all customers, which are stepped in creation order), arrivals are
  admitted before `schedule.step()` runs, and adding an agent never fails.
  The cosmetic `MultiGrid` has no functional coupling and is omitted.
* Python `int` subtraction can in principle go negative, so the running
  totals are embedded as `ℤ`; service durations and the uniform draws are
  real-valued in Python and embedded as `ℚ`.
-/

namespace Implementacion

/-- `CustomerAgent` state (`implementacion.py` lines 7-12): arrival tick and
optional service-entry tick. -/
structure Customer where
  time_entered_queue : ℕ
  time_entered_service : Option ℕ
deriving DecidableEq

instance : Inhabited Customer := ⟨{ time_entered_queue := 0, time_entered_service := none }⟩

/-- `ServerAgent` state (`implementacion.py` lines 20-25): the customer being
served (by store index), and the completion time of the running episode. -/
structure Server where
  customer_being_served : Option ℕ
  next_completion_time : ℚ
deriving DecidableEq

instance : Inhabited Server := ⟨{ customer_being_served := none, next_completion_time := 0 }⟩

/-- `QueueModel` state (`implementacion.py` lines 42-62). -/
structure QueueModel where
  mean_arrival_rate : ℚ
  mean_service_time : ℚ
  number_of_servers : ℤ
  max_ticks : ℤ
  time : ℕ
  customers : List Customer
  queue : List ℕ
  servers : List Server
  total_time_in_queue : ℤ
  total_time_in_system : ℤ
  total_queue_throughput : ℕ
  total_system_throughput : ℕ
deriving DecidableEq

/-- `CustomerAgent.step` (`implementacion.py` lines 14-17): if the service
entry time is unset and the customer is (still) in the queue, record the
current tick as its service entry time.  `i` is the customer's store index,
standing for the object identity used by Python's `in` test. -/
def CustomerAgent.step (t : ℕ) (q : List ℕ) (i : ℕ) (c : Customer) : Customer :=
  if c.time_entered_service = none ∧ i ∈ q then
    { c with time_entered_service := some t }
  else c

/-- All customer agents' `step`, in creation (= insertion) order.  Each
customer's `step` writes only its own state and reads only the (unchanged)
queue, so stepping them in order is the sequential loop of
`SimultaneousActivation.step` restricted to the customer agents. -/
def stepCustomers (t : ℕ) (q : List ℕ) : ℕ → List Customer → List Customer
  | _, [] => []
  | i, c :: tl => CustomerAgent.step t q i c :: stepCustomers t q (i + 1) tl

/-- `ServerAgent.step` (`implementacion.py` lines 27-41).  `t` is the current
tick and `d` the exponential variate drawn if a dispatch happens this call.
First the dispatch phase: if idle and the queue is non-empty, pop the head
customer, stamp its `time_entered_service`, and set the completion time.
Then the completion phase: if (now) busy and the current tick has reached the
completion time, fold the customer's sojourn and wait times into the model
totals, count the completion, and become idle.  The function returns the
updated server together with the updated model fields (it never touches
`m.servers`; the scheduler writes the returned server back). -/
def ServerAgent.step (t : ℕ) (d : ℚ) (sv : Server) (m : QueueModel) : Server × QueueModel :=
  let p : Server × QueueModel :=
    match m.queue, sv.customer_being_served with
    | i :: rest, none =>
        ({ customer_being_served := some i, next_completion_time := (t : ℚ) + d },
         { m with
             queue := rest,
             customers := m.customers.set i
               { m.customers.getD i default with time_entered_service := some t } })
    | _, _ => (sv, m)
  match p.1.customer_being_served with
  | some i =>
      if p.1.next_completion_time ≤ (t : ℚ) then
        let c := p.2.customers.getD i default
        ({ p.1 with customer_being_served := none },
         { p.2 with
             total_time_in_system :=
               p.2.total_time_in_system + ((t : ℤ) - (c.time_entered_queue : ℤ)),
             total_time_in_queue :=
               p.2.total_time_in_queue
                 + ((c.time_entered_service.getD 0 : ℤ) - (c.time_entered_queue : ℤ)),
             total_system_throughput := p.2.total_system_throughput + 1 })
      else p
  | none => p

/-- All server agents' `step`, in insertion order; `si` numbers the servers so
that the duration oracle can be consulted at the right call site. -/
def stepServerList (dur : ℕ → ℕ → ℚ) (t : ℕ) :
    ℕ → List Server → QueueModel → List Server × QueueModel
  | _, [], m => ([], m)
  | si, sv :: tl, m =>
      let p := ServerAgent.step t (dur si t) sv m
      let q := stepServerList dur t (si + 1) tl p.2
      (p.1 :: q.1, q.2)

/-- One `schedule.step()` of the `SimultaneousActivation` scheduler: all
agents are stepped in insertion order (servers first, then customers in
creation order), then the tick counter advances by one.  Modelled from the
spec (sections 2 and 5); see the file header. -/
def QueueModel.scheduleStep (dur : ℕ → ℕ → ℚ) (m : QueueModel) : QueueModel :=
  let t := m.time
  let p := stepServerList dur t 0 m.servers m
  { p.2 with
      servers := p.1,
      customers := stepCustomers t p.2.queue 0 p.2.customers,
      time := t + 1 }

/-- `QueueModel.step` (`implementacion.py` lines 64-74): if the run is not
over, possibly admit one customer (when the uniform draw is below the
arrival rate), then run the scheduler. -/
def QueueModel.step (u : ℕ → ℚ) (dur : ℕ → ℕ → ℚ) (m : QueueModel) : QueueModel :=
  if (m.time : ℤ) < m.max_ticks then
    let m1 :=
      if u m.time < m.mean_arrival_rate then
        { m with
            customers := m.customers ++
              [{ time_entered_queue := m.time, time_entered_service := none }],
            queue := m.queue ++ [m.customers.length],
            total_queue_throughput := m.total_queue_throughput + 1 }
      else m
    m1.scheduleStep dur
  else m

/-- Fields of the model that the server phase of a tick never changes. -/
structure Frame (m m' : QueueModel) : Prop where
  max_ticks : m'.max_ticks = m.max_ticks
  time : m'.time = m.time
  mean_arrival_rate : m'.mean_arrival_rate = m.mean_arrival_rate
  mean_service_time : m'.mean_service_time = m.mean_service_time
  number_of_servers : m'.number_of_servers = m.number_of_servers
  servers_eq : m'.servers = m.servers
  total_queue_throughput : m'.total_queue_throughput = m.total_queue_throughput
  customers_length : m'.customers.length = m.customers.length

theorem frame_self (m : QueueModel) : Frame m m :=
  ⟨rfl, rfl, rfl, rfl, rfl, rfl, rfl, rfl⟩

theorem frame_comp {m m' m'' : QueueModel} (h : Frame m m') (h' : Frame m' m'') :
    Frame m m'' := by
  obtain ⟨a1, a2, a3, a4, a5, a6, a7, a8⟩ := h
  obtain ⟨b1, b2, b3, b4, b5, b6, b7, b8⟩ := h'
  exact ⟨b1.trans a1, b2.trans a2, b3.trans a3, b4.trans a4, b5.trans a5,
    b6.trans a6, b7.trans a7, b8.trans a8⟩

/-- A single server step preserves the frame fields. -/
theorem ServerAgent.step_frame (t : ℕ) (d : ℚ) (sv : Server) (m : QueueModel) :
    Frame m (ServerAgent.step t d sv m).2 := by
  unfold ServerAgent.step
  rcases hq : m.queue with _ | ⟨i, rest⟩ <;>
    rcases hc : sv.customer_being_served with _ | c <;>
      simp only [hq, hc] <;>
      refine ⟨?_, ?_, ?_, ?_, ?_, ?_, ?_, ?_⟩ <;>
      (try split) <;> (try split) <;> simp_all

/-- The whole server phase preserves the frame fields. -/
theorem stepServerList_frame (dur : ℕ → ℕ → ℚ) (t si : ℕ) (svs : List Server)
    (m : QueueModel) : Frame m (stepServerList dur t si svs m).2 := by
  induction svs generalizing si m with
  | nil => exact frame_self m
  | cons sv tl ih =>
      rw [stepServerList]
      exact frame_comp (ServerAgent.step_frame t (dur si t) sv m)
        (ih (si + 1) (ServerAgent.step t (dur si t) sv m).2)

theorem QueueModel.scheduleStep_time (dur : ℕ → ℕ → ℚ) (m : QueueModel) :
    (m.scheduleStep dur).time = m.time + 1 := rfl

theorem QueueModel.scheduleStep_max_ticks (dur : ℕ → ℕ → ℚ) (m : QueueModel) :
    (m.scheduleStep dur).max_ticks = m.max_ticks :=
  (stepServerList_frame dur m.time 0 m.servers m).max_ticks

theorem QueueModel.step_time_of_lt (u : ℕ → ℚ) (dur : ℕ → ℕ → ℚ) (m : QueueModel)
    (h : (m.time : ℤ) < m.max_ticks) :
    (m.step u dur).time = m.time + 1 ∧ (m.step u dur).max_ticks = m.max_ticks := by
  unfold QueueModel.step
  rw [if_pos h]
  constructor
  · split <;> rw [QueueModel.scheduleStep_time]
  · split <;> rw [QueueModel.scheduleStep_max_ticks]

/-- The `while self.schedule.time < self.max_ticks: self.step()` loop of
`run_simulation` (`implementacion.py` lines 76-79). -/
def QueueModel.run_loop (u : ℕ → ℚ) (dur : ℕ → ℕ → ℚ) (m : QueueModel) : QueueModel :=
  if h : (m.time : ℤ) < m.max_ticks then (m.step u dur).run_loop u dur else m
termination_by (m.max_ticks - (m.time : ℤ)).toNat
decreasing_by
  obtain ⟨h1, h2⟩ := QueueModel.step_time_of_lt u dur m h
  rw [h1, h2]
  omega

/-- Number of busy servers: the `sum(1 for server in self.schedule.agents if
isinstance(server, ServerAgent) and server.customer_being_served is not None)`
expression (`implementacion.py` line 85); the server agents of the schedule
are exactly `m.servers`. -/
def countBusy (svs : List Server) : ℕ :=
  svs.countP (fun sv => sv.customer_being_served.isSome)

/-- The metrics dictionary returned by `run_simulation`. -/
structure SimMetrics where
  avg_time_in_queue : ℚ
  avg_time_in_system : ℚ
  avg_queue_length : ℚ
  avg_servers_busy : ℚ
deriving DecidableEq

/-- Final-metrics computation of `run_simulation` (`implementacion.py`
lines 81-92), as a function of the model state after the loop. -/
def QueueModel.metrics (m : QueueModel) : SimMetrics :=
  { avg_time_in_queue :=
      if 0 < m.total_queue_throughput then
        (m.total_time_in_queue : ℚ) / (m.total_queue_throughput : ℚ)
      else 0,
    avg_time_in_system :=
      if 0 < m.total_system_throughput then
        (m.total_time_in_system : ℚ) / (m.total_system_throughput : ℚ)
      else 0,
    avg_queue_length :=
      if 0 < m.time then (m.total_time_in_queue : ℚ) / (m.time : ℚ) else 0,
    avg_servers_busy :=
      if 0 < m.time then (countBusy m.servers : ℚ) / (m.time : ℚ) else 0 }

/-- `QueueModel.run_simulation` (`implementacion.py` lines 76-92): run the
loop, then compute the metrics. -/
def QueueModel.run_simulation (u : ℕ → ℚ) (dur : ℕ → ℕ → ℚ) (m : QueueModel) : SimMetrics :=
  (m.run_loop u dur).metrics

/-- `QueueModel.__init__` (`implementacion.py` lines 44-62).  It stores the
four parameters unchecked, starts with empty queue, store and totals, and
creates `number_of_servers` idle servers (Python's `range` of a negative
number is empty). -/
def QueueModel.init (mean_arrival_rate mean_service_time : ℚ)
    (number_of_servers max_ticks : ℤ) : QueueModel :=
  { mean_arrival_rate := mean_arrival_rate,
    mean_service_time := mean_service_time,
    number_of_servers := number_of_servers,
    max_ticks := max_ticks,
    time := 0,
    customers := [],
    queue := [],
    servers := (List.range number_of_servers.toNat).map
      (fun _ => { customer_being_served := none, next_completion_time := 0 }),
    total_time_in_queue := 0,
    total_time_in_system := 0,
    total_queue_throughput := 0,
    total_system_throughput := 0 }

end Implementacion

namespace Grafica

/-!
`grafica.py` duplicates `implementacion.py`'s `CustomerAgent`, `ServerAgent`
and `QueueModel` classes verbatim except that

* `__init__` additionally initialises two empty sample lists
  `queue_lengths` and `servers_busy` (lines 60-62);
* `step` (lines 69-84), after `schedule.step()`, appends `len(self.queue)`
  to `queue_lengths` and the current busy-server count to `servers_busy`;
* `run_simulation` (lines 86-102) computes `avg_servers_busy` as
  `sum(self.servers_busy) / len(self.servers_busy)` (line 95) instead of
  dividing the final busy-server count by `schedule.time`.

The embedding therefore reuses `Implementacion.QueueModel` for the engine
fields and wraps it with the two sample lists.
-/

open Implementacion

/-- `QueueModel` state of `grafica.py`: the shared engine state plus the two
per-tick sample series (`grafica.py` lines 60-62). -/
structure GQueueModel where
  core : Implementacion.QueueModel
  queue_lengths : List ℕ
  servers_busy : List ℕ
deriving DecidableEq

/-- `QueueModel.step` of `grafica.py` (lines 69-84): the engine tick of
`implementacion.py` followed by recording the post-tick queue length and
busy-server count. -/
def GQueueModel.step (u : ℕ → ℚ) (dur : ℕ → ℕ → ℚ) (g : GQueueModel) : GQueueModel :=
  if (g.core.time : ℤ) < g.core.max_ticks then
    let c := g.core.step u dur
    { core := c,
      queue_lengths := g.queue_lengths ++ [c.queue.length],
      servers_busy := g.servers_busy ++ [countBusy c.servers] }
  else g

/-- The `while` loop of `run_simulation` (`grafica.py` lines 86-89). -/
def GQueueModel.run_loop (u : ℕ → ℚ) (dur : ℕ → ℕ → ℚ) (g : GQueueModel) : GQueueModel :=
  if h : (g.core.time : ℤ) < g.core.max_ticks then (g.step u dur).run_loop u dur else g
termination_by (g.core.max_ticks - (g.core.time : ℤ)).toNat
decreasing_by
  obtain ⟨h1, h2⟩ := Implementacion.QueueModel.step_time_of_lt u dur g.core h
  simp only [GQueueModel.step, h, if_pos]
  rw [h1, h2]
  omega

/-- Final-metrics computation of `run_simulation` (`grafica.py` lines 91-102):
identical to `implementacion.py` except `avg_servers_busy` is the mean of the
`servers_busy` samples. -/
def GQueueModel.metrics (g : GQueueModel) : SimMetrics :=
  { avg_time_in_queue :=
      if 0 < g.core.total_queue_throughput then
        (g.core.total_time_in_queue : ℚ) / (g.core.total_queue_throughput : ℚ)
      else 0,
    avg_time_in_system :=
      if 0 < g.core.total_system_throughput then
        (g.core.total_time_in_system : ℚ) / (g.core.total_system_throughput : ℚ)
      else 0,
    avg_queue_length :=
      if 0 < g.core.time then (g.core.total_time_in_queue : ℚ) / (g.core.time : ℚ) else 0,
    avg_servers_busy :=
      if 0 < g.servers_busy.length then
        ((g.servers_busy.sum : ℕ) : ℚ) / (g.servers_busy.length : ℚ)
      else 0 }

/-- `run_simulation` of `grafica.py` (lines 86-102). -/
def GQueueModel.run_simulation (u : ℕ → ℚ) (dur : ℕ → ℕ → ℚ) (g : GQueueModel) : SimMetrics :=
  (g.run_loop u dur).metrics

/-- `QueueModel.__init__` of `grafica.py` (lines 45-67). -/
def GQueueModel.init (mean_arrival_rate mean_service_time : ℚ)
    (number_of_servers max_ticks : ℤ) : GQueueModel :=
  { core := Implementacion.QueueModel.init mean_arrival_rate mean_service_time
      number_of_servers max_ticks,
    queue_lengths := [],
    servers_busy := [] }

end Grafica

namespace Implementacion2

/-!
Embedding of `implementacion2.py`.  The engine is structured like
`implementacion.py` with renamed identifiers, except for one functional
difference: there is a single counter `throughput`, incremented both when a
client is admitted (line 73) and when a service episode completes (line 40),
and both `avg_queue_time` and `avg_system_time` divide by it (lines 83-84).
The `unique_id` passed to `Client` (line 70) is `throughput` at creation
time; it is only used as the scheduler key, and clients are referred to here
by their store index (creation order), as in the other embeddings.
-/

/-- `Client` state (`implementacion2.py` lines 6-12). -/
structure Client where
  queue_entry_time : ℕ
  service_start_time : Option ℕ
deriving DecidableEq

instance : Inhabited Client := ⟨{ queue_entry_time := 0, service_start_time := none }⟩

/-- `Server` state (`implementacion2.py` lines 20-26). -/
structure Server where
  active_customer : Option ℕ
  completion_time : ℚ
deriving DecidableEq

instance : Inhabited Server := ⟨{ active_customer := none, completion_time := 0 }⟩

/-- `QueueSimulation` state (`implementacion2.py` lines 44-63). -/
structure QueueSimulation where
  mean_arrival_rate : ℚ
  mean_service_time : ℚ
  num_servers : ℤ
  max_steps : ℤ
  time : ℕ
  clients : List Client
  queue : List ℕ
  servers : List Server
  total_time_queue : ℤ
  total_time_system : ℤ
  throughput : ℕ
deriving DecidableEq

/-- `Client.step` (`implementacion2.py` lines 14-17). -/
def Client.step (t : ℕ) (q : List ℕ) (i : ℕ) (c : Client) : Client :=
  if c.service_start_time = none ∧ i ∈ q then
    { c with service_start_time := some t }
  else c

/-- All client agents' `step`, in creation order. -/
def stepClients (t : ℕ) (q : List ℕ) : ℕ → List Client → List Client
  | _, [] => []
  | i, c :: tl => Client.step t q i c :: stepClients t q (i + 1) tl

/-- `Server.step` (`implementacion2.py` lines 28-41): dispatch phase then
completion phase, as in `implementacion.py`, but the completion increments
the shared `throughput` counter. -/
def Server.step (t : ℕ) (d : ℚ) (sv : Server) (s : QueueSimulation) :
    Server × QueueSimulation :=
  let p : Server × QueueSimulation :=
    match s.queue, sv.active_customer with
    | i :: rest, none =>
        ({ active_customer := some i, completion_time := (t : ℚ) + d },
         { s with
             queue := rest,
             clients := s.clients.set i
               { s.clients.getD i default with service_start_time := some t } })
    | _, _ => (sv, s)
  match p.1.active_customer with
  | some i =>
      if p.1.completion_time ≤ (t : ℚ) then
        let c := p.2.clients.getD i default
        ({ p.1 with active_customer := none },
         { p.2 with
             total_time_system :=
               p.2.total_time_system + ((t : ℤ) - (c.queue_entry_time : ℤ)),
             total_time_queue :=
               p.2.total_time_queue
                 + ((c.service_start_time.getD 0 : ℤ) - (c.queue_entry_time : ℤ)),
             throughput := p.2.throughput + 1 })
      else p
  | none => p

/-- All server agents' `step`, in insertion order. -/
def stepServerList (dur : ℕ → ℕ → ℚ) (t : ℕ) :
    ℕ → List Server → QueueSimulation → List Server × QueueSimulation
  | _, [], s => ([], s)
  | si, sv :: tl, s =>
      let p := Server.step t (dur si t) sv s
      let q := stepServerList dur t (si + 1) tl p.2
      (p.1 :: q.1, q.2)

/-- One `schedule.step()`: servers then clients, then the tick advances
(modelled from the spec, as for `implementacion.py`). -/
def QueueSimulation.scheduleStep (dur : ℕ → ℕ → ℚ) (s : QueueSimulation) : QueueSimulation :=
  let t := s.time
  let p := stepServerList dur t 0 s.servers s
  { p.2 with
      servers := p.1,
      clients := stepClients t p.2.queue 0 p.2.clients,
      time := t + 1 }

/-- `QueueSimulation.step` (`implementacion2.py` lines 65-75): admission (which
also increments `throughput`, line 73) followed by the scheduler tick. -/
def QueueSimulation.step (u : ℕ → ℚ) (dur : ℕ → ℕ → ℚ) (s : QueueSimulation) :
    QueueSimulation :=
  if (s.time : ℤ) < s.max_steps then
    let s1 :=
      if u s.time < s.mean_arrival_rate then
        { s with
            clients := s.clients ++
              [{ queue_entry_time := s.time, service_start_time := none }],
            queue := s.queue ++ [s.clients.length],
            throughput := s.throughput + 1 }
      else s
    s1.scheduleStep dur
  else s

/-- Fields of the simulation state the server phase never changes. -/
structure Frame2 (s s' : QueueSimulation) : Prop where
  max_steps : s'.max_steps = s.max_steps
  time : s'.time = s.time
  mean_arrival_rate : s'.mean_arrival_rate = s.mean_arrival_rate
  mean_service_time : s'.mean_service_time = s.mean_service_time
  num_servers : s'.num_servers = s.num_servers
  servers_eq : s'.servers = s.servers
  clients_length : s'.clients.length = s.clients.length

theorem frame2_self (s : QueueSimulation) : Frame2 s s :=
  ⟨rfl, rfl, rfl, rfl, rfl, rfl, rfl⟩

theorem frame2_comp {s s' s'' : QueueSimulation} (h : Frame2 s s') (h' : Frame2 s' s'') :
    Frame2 s s'' := by
  obtain ⟨a1, a2, a3, a4, a5, a6, a7⟩ := h
  obtain ⟨b1, b2, b3, b4, b5, b6, b7⟩ := h'
  exact ⟨b1.trans a1, b2.trans a2, b3.trans a3, b4.trans a4, b5.trans a5,
    b6.trans a6, b7.trans a7⟩

theorem Server.step_frame2 (t : ℕ) (d : ℚ) (sv : Server) (s : QueueSimulation) :
    Frame2 s (Server.step t d sv s).2 := by
  unfold Server.step
  rcases hq : s.queue with _ | ⟨i, rest⟩ <;>
    rcases hc : sv.active_customer with _ | c <;>
      simp only [hq, hc] <;>
      refine ⟨?_, ?_, ?_, ?_, ?_, ?_, ?_⟩ <;>
      (try split) <;> (try split) <;> simp_all

theorem stepServerList_frame2 (dur : ℕ → ℕ → ℚ) (t si : ℕ) (svs : List Server)
    (s : QueueSimulation) : Frame2 s (stepServerList dur t si svs s).2 := by
  induction svs generalizing si s with
  | nil => exact frame2_self s
  | cons sv tl ih =>
      rw [stepServerList]
      exact frame2_comp (Server.step_frame2 t (dur si t) sv s)
        (ih (si + 1) (Server.step t (dur si t) sv s).2)

theorem QueueSimulation.step_time_of_lt2 (u : ℕ → ℚ) (dur : ℕ → ℕ → ℚ)
    (s : QueueSimulation) (h : (s.time : ℤ) < s.max_steps) :
    (s.step u dur).time = s.time + 1 ∧ (s.step u dur).max_steps = s.max_steps := by
  unfold QueueSimulation.step
  rw [if_pos h]
  constructor
  · split <;> rfl
  · show (QueueSimulation.scheduleStep _ _).max_steps = _
    split <;> exact (stepServerList_frame2 dur _ 0 _ _).max_steps

/-- The `while` loop of `run` (`implementacion2.py` lines 77-80). -/
def QueueSimulation.run_loop (u : ℕ → ℚ) (dur : ℕ → ℕ → ℚ) (s : QueueSimulation) :
    QueueSimulation :=
  if h : (s.time : ℤ) < s.max_steps then (s.step u dur).run_loop u dur else s
termination_by (s.max_steps - (s.time : ℤ)).toNat
decreasing_by
  obtain ⟨h1, h2⟩ := QueueSimulation.step_time_of_lt2 u dur s h
  rw [h1, h2]
  omega

/-- Busy-server count (`implementacion2.py` line 86). -/
def countBusy2 (svs : List Server) : ℕ :=
  svs.countP (fun sv => sv.active_customer.isSome)

/-- The metrics dictionary returned by `run`. -/
structure RunMetrics where
  avg_queue_time : ℚ
  avg_system_time : ℚ
  avg_queue_length : ℚ
  avg_servers_busy : ℚ
deriving DecidableEq

/-- Final-metrics computation of `run` (`implementacion2.py` lines 82-93);
note both time averages divide by the shared `throughput` counter. -/
def QueueSimulation.metrics (s : QueueSimulation) : RunMetrics :=
  { avg_queue_time :=
      if 0 < s.throughput then (s.total_time_queue : ℚ) / (s.throughput : ℚ) else 0,
    avg_system_time :=
      if 0 < s.throughput then (s.total_time_system : ℚ) / (s.throughput : ℚ) else 0,
    avg_queue_length :=
      if 0 < s.time then (s.total_time_queue : ℚ) / (s.time : ℚ) else 0,
    avg_servers_busy :=
      if 0 < s.time then (countBusy2 s.servers : ℚ) / (s.time : ℚ) else 0 }

/-- `QueueSimulation.run` (`implementacion2.py` lines 77-93). -/
def QueueSimulation.run (u : ℕ → ℚ) (dur : ℕ → ℕ → ℚ) (s : QueueSimulation) : RunMetrics :=
  (s.run_loop u dur).metrics

/-- `QueueSimulation.__init__` (`implementacion2.py` lines 47-63): stores the
parameters unchecked and creates `num_servers` idle servers. -/
def QueueSimulation.init (arrival_rate service_time : ℚ)
    (num_servers max_steps : ℤ) : QueueSimulation :=
  { mean_arrival_rate := arrival_rate,
    mean_service_time := service_time,
    num_servers := num_servers,
    max_steps := max_steps,
    time := 0,
    clients := [],
    queue := [],
    servers := (List.range num_servers.toNat).map
      (fun _ => { active_customer := none, completion_time := 0 }),
    total_time_queue := 0,
    total_time_system := 0,
    throughput := 0 }

end Implementacion2

/-! ### Unrolling the run loops into tick iteration -/

namespace Implementacion

theorem QueueModel.step_eq_self_of_ge (u : ℕ → ℚ) (dur : ℕ → ℕ → ℚ) (m : QueueModel)
    (h : ¬ (m.time : ℤ) < m.max_ticks) : m.step u dur = m := by
  unfold QueueModel.step
  rw [if_neg h]

theorem QueueModel.step_max_ticks (u : ℕ → ℚ) (dur : ℕ → ℕ → ℚ) (m : QueueModel) :
    (m.step u dur).max_ticks = m.max_ticks := by
  unfold QueueModel.step
  split
  · split <;> rw [QueueModel.scheduleStep_max_ticks]
  · rfl

/-- The `while` loop of `run_simulation` is `max_ticks − time` many `step`s. -/
theorem QueueModel.run_loop_eq_iterate (u : ℕ → ℚ) (dur : ℕ → ℕ → ℚ) :
    ∀ (n : ℕ) (m : QueueModel), (m.max_ticks - (m.time : ℤ)).toNat = n →
      m.run_loop u dur = (QueueModel.step u dur)^[n] m := by
  intro n
  induction n with
  | zero =>
      intro m hm
      rw [QueueModel.run_loop, dif_neg (by omega)]
      rfl
  | succ k ih =>
      intro m hm
      have hlt : (m.time : ℤ) < m.max_ticks := by omega
      rw [QueueModel.run_loop, dif_pos hlt]
      obtain ⟨h1, h2⟩ := QueueModel.step_time_of_lt u dur m hlt
      rw [ih (m.step u dur) (by rw [h1, h2]; omega)]
      rw [Function.iterate_succ_apply]

/-- The tick counter after `k` calls of `step`: it advances by one per call
until it hits `max_ticks`, then stays put. -/
theorem QueueModel.iterate_time (u : ℕ → ℚ) (dur : ℕ → ℕ → ℚ) :
    ∀ (k : ℕ) (m : QueueModel),
      ((QueueModel.step u dur)^[k] m).time
          = min (m.time + k) (max m.time m.max_ticks.toNat) ∧
      ((QueueModel.step u dur)^[k] m).max_ticks = m.max_ticks := by
  intro k
  induction k with
  | zero =>
      intro m
      refine ⟨?_, rfl⟩
      simp only [Function.iterate_zero, id_eq]
      omega
  | succ k ih =>
      intro m
      rw [Function.iterate_succ_apply]
      by_cases hg : (m.time : ℤ) < m.max_ticks
      · obtain ⟨h1, h2⟩ := QueueModel.step_time_of_lt u dur m hg
        obtain ⟨ht, hm⟩ := ih (m.step u dur)
        rw [ht, hm, h1, h2]
        exact ⟨by omega, rfl⟩
      · rw [QueueModel.step_eq_self_of_ge u dur m hg]
        obtain ⟨ht, hm⟩ := ih m
        rw [ht, hm]
        exact ⟨by omega, rfl⟩

end Implementacion

namespace Implementacion2

theorem QueueSimulation.step_eq_self_of_ge2 (u : ℕ → ℚ) (dur : ℕ → ℕ → ℚ)
    (s : QueueSimulation) (h : ¬ (s.time : ℤ) < s.max_steps) : s.step u dur = s := by
  unfold QueueSimulation.step
  rw [if_neg h]

theorem QueueSimulation.run_loop_eq_iterate2 (u : ℕ → ℚ) (dur : ℕ → ℕ → ℚ) :
    ∀ (n : ℕ) (s : QueueSimulation), (s.max_steps - (s.time : ℤ)).toNat = n →
      s.run_loop u dur = (QueueSimulation.step u dur)^[n] s := by
  intro n
  induction n with
  | zero =>
      intro s hs
      rw [QueueSimulation.run_loop, dif_neg (by omega)]
      rfl
  | succ k ih =>
      intro s hs
      have hlt : (s.time : ℤ) < s.max_steps := by omega
      rw [QueueSimulation.run_loop, dif_pos hlt]
      obtain ⟨h1, h2⟩ := QueueSimulation.step_time_of_lt2 u dur s hlt
      rw [ih (s.step u dur) (by rw [h1, h2]; omega)]
      rw [Function.iterate_succ_apply]

theorem QueueSimulation.iterate_time2 (u : ℕ → ℚ) (dur : ℕ → ℕ → ℚ) :
    ∀ (k : ℕ) (s : QueueSimulation),
      ((QueueSimulation.step u dur)^[k] s).time
          = min (s.time + k) (max s.time s.max_steps.toNat) ∧
      ((QueueSimulation.step u dur)^[k] s).max_steps = s.max_steps := by
  intro k
  induction k with
  | zero =>
      intro s
      refine ⟨?_, rfl⟩
      simp only [Function.iterate_zero, id_eq]
      omega
  | succ k ih =>
      intro s
      rw [Function.iterate_succ_apply]
      by_cases hg : (s.time : ℤ) < s.max_steps
      · obtain ⟨h1, h2⟩ := QueueSimulation.step_time_of_lt2 u dur s hg
        obtain ⟨ht, hm⟩ := ih (s.step u dur)
        rw [ht, hm, h1, h2]
        exact ⟨by omega, rfl⟩
      · rw [QueueSimulation.step_eq_self_of_ge2 u dur s hg]
        obtain ⟨ht, hm⟩ := ih s
        rw [ht, hm]
        exact ⟨by omega, rfl⟩

end Implementacion2

namespace Grafica

open Implementacion

/-- The engine component of a `grafica.py` tick is exactly an
`implementacion.py` tick. -/
theorem GQueueModel.step_core (u : ℕ → ℚ) (dur : ℕ → ℕ → ℚ) (g : GQueueModel) :
    (g.step u dur).core = g.core.step u dur := by
  unfold GQueueModel.step
  by_cases hg : (g.core.time : ℤ) < g.core.max_ticks
  · rw [if_pos hg]
  · rw [if_neg hg, QueueModel.step_eq_self_of_ge u dur g.core hg]

theorem GQueueModel.iterate_core (u : ℕ → ℚ) (dur : ℕ → ℕ → ℚ) :
    ∀ (k : ℕ) (g : GQueueModel),
      ((GQueueModel.step u dur)^[k] g).core = (QueueModel.step u dur)^[k] g.core := by
  intro k
  induction k with
  | zero => intro g; rfl
  | succ k ih =>
      intro g
      rw [Function.iterate_succ_apply, Function.iterate_succ_apply, ih,
        GQueueModel.step_core]

theorem GQueueModel.grun_loop_eq_iterate (u : ℕ → ℚ) (dur : ℕ → ℕ → ℚ) :
    ∀ (n : ℕ) (g : GQueueModel), (g.core.max_ticks - (g.core.time : ℤ)).toNat = n →
      g.run_loop u dur = (GQueueModel.step u dur)^[n] g := by
  intro n
  induction n with
  | zero =>
      intro g hg
      rw [GQueueModel.run_loop, dif_neg (by omega)]
      rfl
  | succ k ih =>
      intro g hg
      have hlt : (g.core.time : ℤ) < g.core.max_ticks := by omega
      rw [GQueueModel.run_loop, dif_pos hlt]
      obtain ⟨h1, h2⟩ := QueueModel.step_time_of_lt u dur g.core hlt
      rw [ih (g.step u dur)
        (by rw [GQueueModel.step_core, h1, h2]; omega)]
      rw [Function.iterate_succ_apply]

end Grafica

/-! ### Concrete runs used to settle claims on explicit inputs

The oracles below fix the random draws of concrete sample paths.  `uEvery`
makes `random.random()` return `0`, so with `mean_arrival_rate = 1` a
customer arrives every tick; `uOnce` admits an arrival only at tick 0;
`uThrice` admits arrivals at ticks 0, 1 and 4.  `dBig` draws service
durations of `100` (no service finishes within a five-tick run), `dShort`
draws `2` at tick 0 and `100` afterwards, and `dTwo` draws `3/2` at tick 0
and `1/2` at tick 3. -/

namespace Scenario

open Implementacion Implementacion2 Grafica

def uEvery : ℕ → ℚ := fun _ => 0

def uOnce : ℕ → ℚ := fun t => if t = 0 then 0 else 1

def uThrice : ℕ → ℚ := fun t => if t = 0 ∨ t = 1 ∨ t = 4 then 0 else 1

def dBig : ℕ → ℕ → ℚ := fun _ _ => 100

def dShort : ℕ → ℕ → ℚ := fun _ t => if t = 0 then 2 else 100

def dTwo : ℕ → ℕ → ℚ := fun _ t => if t = 0 then 3/2 else if t = 3 then 1/2 else 100

/-- A single-server five-tick model with `mean_arrival_rate = 1`,
`mean_service_time = 0.67` (the duration draws come from the oracles). -/
def model : Implementacion.QueueModel := Implementacion.QueueModel.init 1 (67/100) 1 5

def gmodel : GQueueModel := GQueueModel.init 1 (67/100) 1 5

def simulation : QueueSimulation := QueueSimulation.init 1 (67/100) 1 5

end Scenario

/-! ### Loop-final states -/

namespace Implementacion

/-- The model state at the end of a full run started from
`QueueModel.init rate svc ns mt`; `run_loop_init` below proves that the
source's `while` loop reaches exactly this state. -/
def QueueModel.finalState (u : ℕ → ℚ) (dur : ℕ → ℕ → ℚ) (rate svc : ℚ)
    (ns mt : ℤ) : QueueModel :=
  (QueueModel.step u dur)^[mt.toNat] (QueueModel.init rate svc ns mt)

theorem QueueModel.run_loop_init (u : ℕ → ℚ) (dur : ℕ → ℕ → ℚ) (rate svc : ℚ)
    (ns mt : ℤ) :
    QueueModel.run_loop u dur (QueueModel.init rate svc ns mt)
      = QueueModel.finalState u dur rate svc ns mt :=
  QueueModel.run_loop_eq_iterate u dur mt.toNat _ (by simp [QueueModel.init])

end Implementacion

namespace Implementacion2

/-- The simulation state at the end of a full run started from
`QueueSimulation.init rate svc ns mt`. -/
def QueueSimulation.finalState (u : ℕ → ℚ) (dur : ℕ → ℕ → ℚ) (rate svc : ℚ)
    (ns mt : ℤ) : QueueSimulation :=
  (QueueSimulation.step u dur)^[mt.toNat] (QueueSimulation.init rate svc ns mt)

theorem QueueSimulation.run_loop_init2 (u : ℕ → ℚ) (dur : ℕ → ℕ → ℚ) (rate svc : ℚ)
    (ns mt : ℤ) :
    QueueSimulation.run_loop u dur (QueueSimulation.init rate svc ns mt)
      = QueueSimulation.finalState u dur rate svc ns mt :=
  QueueSimulation.run_loop_eq_iterate2 u dur mt.toNat _ (by simp [QueueSimulation.init])

end Implementacion2

namespace Grafica

open Implementacion

/-- The `grafica.py` model state at the end of a full run. -/
def GQueueModel.finalState (u : ℕ → ℚ) (dur : ℕ → ℕ → ℚ) (rate svc : ℚ)
    (ns mt : ℤ) : GQueueModel :=
  (GQueueModel.step u dur)^[mt.toNat] (GQueueModel.init rate svc ns mt)

theorem GQueueModel.grun_loop_init (u : ℕ → ℚ) (dur : ℕ → ℕ → ℚ) (rate svc : ℚ)
    (ns mt : ℤ) :
    GQueueModel.run_loop u dur (GQueueModel.init rate svc ns mt)
      = GQueueModel.finalState u dur rate svc ns mt :=
  GQueueModel.grun_loop_eq_iterate u dur mt.toNat _ (by simp [GQueueModel.init, QueueModel.init])

theorem GQueueModel.gstep_eq_self_of_ge (u : ℕ → ℚ) (dur : ℕ → ℕ → ℚ) (g : GQueueModel)
    (h : ¬ (g.core.time : ℤ) < g.core.max_ticks) : g.step u dur = g := by
  unfold GQueueModel.step
  rw [if_neg h]

theorem GQueueModel.step_of_lt (u : ℕ → ℚ) (dur : ℕ → ℕ → ℚ) (g : GQueueModel)
    (h : (g.core.time : ℤ) < g.core.max_ticks) :
    g.step u dur =
      { core := g.core.step u dur,
        queue_lengths := g.queue_lengths ++ [(g.core.step u dur).queue.length],
        servers_busy := g.servers_busy ++ [countBusy (g.core.step u dur).servers] } := by
  unfold GQueueModel.step
  rw [if_pos h]

/-- After `j` ticks, the `servers_busy` series holds exactly the busy-server
count observed at the end of each executed tick. -/
theorem GQueueModel.iterate_servers_busy (u : ℕ → ℚ) (dur : ℕ → ℕ → ℚ) (rate svc : ℚ)
    (ns mt : ℤ) :
    ∀ j : ℕ,
      ((GQueueModel.step u dur)^[j] (GQueueModel.init rate svc ns mt)).servers_busy
        = (List.range (min j mt.toNat)).map
            (fun k => countBusy
              (((QueueModel.step u dur)^[k + 1] (QueueModel.init rate svc ns mt)).servers)) := by
  intro j
  induction j with
  | zero => simp [GQueueModel.init]
  | succ j ih =>
      have hcore := GQueueModel.iterate_core u dur j (GQueueModel.init rate svc ns mt)
      have hicore : (GQueueModel.init rate svc ns mt).core = QueueModel.init rate svc ns mt := rfl
      have htime := (QueueModel.iterate_time u dur j (QueueModel.init rate svc ns mt)).1
      have hmax := (QueueModel.iterate_time u dur j (QueueModel.init rate svc ns mt)).2
      have hit : (QueueModel.init rate svc ns mt).time = 0 := rfl
      have him : (QueueModel.init rate svc ns mt).max_ticks = mt := rfl
      rw [Function.iterate_succ_apply']
      by_cases hj : j < mt.toNat
      · have hguard : ((((GQueueModel.step u dur)^[j] (GQueueModel.init rate svc ns mt)).core.time : ℤ)
            < ((GQueueModel.step u dur)^[j] (GQueueModel.init rate svc ns mt)).core.max_ticks) := by
          rw [hcore, hicore, htime, hmax, hit, him]
          omega
        rw [GQueueModel.step_of_lt u dur _ hguard]
        simp only []
        rw [ih]
        have h1 : min (j + 1) mt.toNat = (min j mt.toNat) + 1 := by omega
        have h2 : min j mt.toNat = j := by omega
        rw [h1, h2, List.range_succ, List.map_append]
        simp only [List.map_cons, List.map_nil]
        rw [hcore, hicore, Function.iterate_succ_apply' (QueueModel.step u dur) j]
      · have hguard : ¬ ((((GQueueModel.step u dur)^[j] (GQueueModel.init rate svc ns mt)).core.time : ℤ)
            < ((GQueueModel.step u dur)^[j] (GQueueModel.init rate svc ns mt)).core.max_ticks) := by
          rw [hcore, hicore, htime, hmax, hit, him]
          omega
        rw [GQueueModel.gstep_eq_self_of_ge u dur _ hguard, ih]
        have : min (j + 1) mt.toNat = min j mt.toNat := by omega
        rw [this]

end Grafica


/-! ### Hand-checked single-tick evaluations of the concrete sample paths

Each `tick…` lemma advances the corresponding concrete run by one tick; the
intermediate states are spelled out in full and verified against the step
function by `norm_num`. -/

namespace Scenario

/-- The initial state `QueueModel.init 1 (67/100) 1 5`, written out. -/
def m0 : Implementacion.QueueModel :=
  { mean_arrival_rate := 1, mean_service_time := 67/100, number_of_servers := 1,
    max_ticks := 5, time := 0,
    customers := [], queue := [],
    servers := [{ customer_being_served := none, next_completion_time := 0 }],
    total_time_in_queue := 0, total_time_in_system := 0,
    total_queue_throughput := 0, total_system_throughput := 0 }

theorem minit : Implementacion.QueueModel.init 1 (67/100) 1 5 = m0 := rfl

theorem model_eq : model = m0 := rfl

def mA1 : Implementacion.QueueModel :=
  { m0 with
    time := 1,
    customers := [{ time_entered_queue := 0, time_entered_service := some 0 }],
    servers := [{ customer_being_served := some 0, next_completion_time := 3/2 }],
    total_queue_throughput := 1 }

def mA2 : Implementacion.QueueModel :=
  { m0 with
    time := 2,
    customers := [{ time_entered_queue := 0, time_entered_service := some 0 },
                  { time_entered_queue := 1, time_entered_service := some 1 }],
    queue := [1],
    servers := [{ customer_being_served := some 0, next_completion_time := 3/2 }],
    total_queue_throughput := 2 }

def mA3 : Implementacion.QueueModel :=
  { m0 with
    time := 3,
    customers := [{ time_entered_queue := 0, time_entered_service := some 0 },
                  { time_entered_queue := 1, time_entered_service := some 1 }],
    queue := [1],
    servers := [{ customer_being_served := none, next_completion_time := 3/2 }],
    total_time_in_system := 2,
    total_queue_throughput := 2, total_system_throughput := 1 }

def mA4 : Implementacion.QueueModel :=
  { m0 with
    time := 4,
    customers := [{ time_entered_queue := 0, time_entered_service := some 0 },
                  { time_entered_queue := 1, time_entered_service := some 3 }],
    servers := [{ customer_being_served := some 1, next_completion_time := 7/2 }],
    total_time_in_system := 2,
    total_queue_throughput := 2, total_system_throughput := 1 }

def mA5 : Implementacion.QueueModel :=
  { m0 with
    time := 5,
    customers := [{ time_entered_queue := 0, time_entered_service := some 0 },
                  { time_entered_queue := 1, time_entered_service := some 3 },
                  { time_entered_queue := 4, time_entered_service := some 4 }],
    queue := [2],
    servers := [{ customer_being_served := none, next_completion_time := 7/2 }],
    total_time_in_queue := 2, total_time_in_system := 5,
    total_queue_throughput := 3, total_system_throughput := 2 }

theorem tickA1 : Implementacion.QueueModel.step uThrice dTwo m0 = mA1 := by
  norm_num [Implementacion.QueueModel.step, Implementacion.QueueModel.scheduleStep,
    Implementacion.stepServerList, Implementacion.ServerAgent.step,
    Implementacion.stepCustomers, Implementacion.CustomerAgent.step, uThrice, dTwo, m0, mA1]
  all_goals decide

theorem tickA2 : Implementacion.QueueModel.step uThrice dTwo mA1 = mA2 := by
  norm_num [Implementacion.QueueModel.step, Implementacion.QueueModel.scheduleStep,
    Implementacion.stepServerList, Implementacion.ServerAgent.step,
    Implementacion.stepCustomers, Implementacion.CustomerAgent.step, uThrice, dTwo, m0, mA1, mA2]
  all_goals decide

theorem tickA3 : Implementacion.QueueModel.step uThrice dTwo mA2 = mA3 := by
  norm_num [Implementacion.QueueModel.step, Implementacion.QueueModel.scheduleStep,
    Implementacion.stepServerList, Implementacion.ServerAgent.step,
    Implementacion.stepCustomers, Implementacion.CustomerAgent.step, uThrice, dTwo, m0, mA2, mA3]
  all_goals decide

theorem tickA4 : Implementacion.QueueModel.step uThrice dTwo mA3 = mA4 := by
  norm_num [Implementacion.QueueModel.step, Implementacion.QueueModel.scheduleStep,
    Implementacion.stepServerList, Implementacion.ServerAgent.step,
    Implementacion.stepCustomers, Implementacion.CustomerAgent.step, uThrice, dTwo, m0, mA3, mA4]
  all_goals decide

theorem tickA5 : Implementacion.QueueModel.step uThrice dTwo mA4 = mA5 := by
  norm_num [Implementacion.QueueModel.step, Implementacion.QueueModel.scheduleStep,
    Implementacion.stepServerList, Implementacion.ServerAgent.step,
    Implementacion.stepCustomers, Implementacion.CustomerAgent.step, uThrice, dTwo, m0, mA4, mA5]
  all_goals decide

def mB1 : Implementacion.QueueModel :=
  { m0 with
    time := 1,
    customers := [{ time_entered_queue := 0, time_entered_service := some 0 }],
    servers := [{ customer_being_served := some 0, next_completion_time := 2 }],
    total_queue_throughput := 1 }

def mB2 : Implementacion.QueueModel :=
  { m0 with
    time := 2,
    customers := [{ time_entered_queue := 0, time_entered_service := some 0 },
                  { time_entered_queue := 1, time_entered_service := some 1 }],
    queue := [1],
    servers := [{ customer_being_served := some 0, next_completion_time := 2 }],
    total_queue_throughput := 2 }

def mB3 : Implementacion.QueueModel :=
  { m0 with
    time := 3,
    customers := [{ time_entered_queue := 0, time_entered_service := some 0 },
                  { time_entered_queue := 1, time_entered_service := some 1 },
                  { time_entered_queue := 2, time_entered_service := some 2 }],
    queue := [1, 2],
    servers := [{ customer_being_served := none, next_completion_time := 2 }],
    total_time_in_system := 2,
    total_queue_throughput := 3, total_system_throughput := 1 }

def mB4 : Implementacion.QueueModel :=
  { m0 with
    time := 4,
    customers := [{ time_entered_queue := 0, time_entered_service := some 0 },
                  { time_entered_queue := 1, time_entered_service := some 3 },
                  { time_entered_queue := 2, time_entered_service := some 2 },
                  { time_entered_queue := 3, time_entered_service := some 3 }],
    queue := [2, 3],
    servers := [{ customer_being_served := some 1, next_completion_time := 103 }],
    total_time_in_system := 2,
    total_queue_throughput := 4, total_system_throughput := 1 }

theorem tickB1 : Implementacion.QueueModel.step uEvery dShort m0 = mB1 := by
  norm_num [Implementacion.QueueModel.step, Implementacion.QueueModel.scheduleStep,
    Implementacion.stepServerList, Implementacion.ServerAgent.step,
    Implementacion.stepCustomers, Implementacion.CustomerAgent.step, uEvery, dShort, m0, mB1]
  all_goals decide

theorem tickB2 : Implementacion.QueueModel.step uEvery dShort mB1 = mB2 := by
  norm_num [Implementacion.QueueModel.step, Implementacion.QueueModel.scheduleStep,
    Implementacion.stepServerList, Implementacion.ServerAgent.step,
    Implementacion.stepCustomers, Implementacion.CustomerAgent.step, uEvery, dShort, m0, mB1, mB2]
  all_goals decide

theorem tickB3 : Implementacion.QueueModel.step uEvery dShort mB2 = mB3 := by
  norm_num [Implementacion.QueueModel.step, Implementacion.QueueModel.scheduleStep,
    Implementacion.stepServerList, Implementacion.ServerAgent.step,
    Implementacion.stepCustomers, Implementacion.CustomerAgent.step, uEvery, dShort, m0, mB2, mB3]
  all_goals decide

theorem tickB4 : Implementacion.QueueModel.step uEvery dShort mB3 = mB4 := by
  norm_num [Implementacion.QueueModel.step, Implementacion.QueueModel.scheduleStep,
    Implementacion.stepServerList, Implementacion.ServerAgent.step,
    Implementacion.stepCustomers, Implementacion.CustomerAgent.step, uEvery, dShort, m0, mB3, mB4]
  all_goals decide

/-- The `uOnce`/`dBig` run: after tick 0 the single server is busy with
customer 0 (completion time 100) and nothing else ever changes but the
clock. -/
def mC (k : ℕ) : Implementacion.QueueModel :=
  { m0 with
    time := k,
    customers := [{ time_entered_queue := 0, time_entered_service := some 0 }],
    servers := [{ customer_being_served := some 0, next_completion_time := 100 }],
    total_queue_throughput := 1 }

theorem tickC1 : Implementacion.QueueModel.step uOnce dBig m0 = mC 1 := by
  norm_num [Implementacion.QueueModel.step, Implementacion.QueueModel.scheduleStep,
    Implementacion.stepServerList, Implementacion.ServerAgent.step,
    Implementacion.stepCustomers, Implementacion.CustomerAgent.step, uOnce, dBig, m0, mC]
  all_goals decide

theorem tickC2 : Implementacion.QueueModel.step uOnce dBig (mC 1) = mC 2 := by
  norm_num [Implementacion.QueueModel.step, Implementacion.QueueModel.scheduleStep,
    Implementacion.stepServerList, Implementacion.ServerAgent.step,
    Implementacion.stepCustomers, Implementacion.CustomerAgent.step, uOnce, dBig, m0, mC]
  all_goals decide

theorem tickC3 : Implementacion.QueueModel.step uOnce dBig (mC 2) = mC 3 := by
  norm_num [Implementacion.QueueModel.step, Implementacion.QueueModel.scheduleStep,
    Implementacion.stepServerList, Implementacion.ServerAgent.step,
    Implementacion.stepCustomers, Implementacion.CustomerAgent.step, uOnce, dBig, m0, mC]
  all_goals decide

theorem tickC4 : Implementacion.QueueModel.step uOnce dBig (mC 3) = mC 4 := by
  norm_num [Implementacion.QueueModel.step, Implementacion.QueueModel.scheduleStep,
    Implementacion.stepServerList, Implementacion.ServerAgent.step,
    Implementacion.stepCustomers, Implementacion.CustomerAgent.step, uOnce, dBig, m0, mC]
  all_goals decide

theorem tickC5 : Implementacion.QueueModel.step uOnce dBig (mC 4) = mC 5 := by
  norm_num [Implementacion.QueueModel.step, Implementacion.QueueModel.scheduleStep,
    Implementacion.stepServerList, Implementacion.ServerAgent.step,
    Implementacion.stepCustomers, Implementacion.CustomerAgent.step, uOnce, dBig, m0, mC]
  all_goals decide

theorem iterC1 : (Implementacion.QueueModel.step uOnce dBig)^[1]
    (Implementacion.QueueModel.init 1 (67/100) 1 5) = mC 1 := by
  rw [show (Implementacion.QueueModel.step uOnce dBig)^[1]
        (Implementacion.QueueModel.init 1 (67/100) 1 5)
      = Implementacion.QueueModel.step uOnce dBig
          (Implementacion.QueueModel.init 1 (67/100) 1 5) from rfl, minit, tickC1]

theorem iterC2 : (Implementacion.QueueModel.step uOnce dBig)^[2]
    (Implementacion.QueueModel.init 1 (67/100) 1 5) = mC 2 := by
  rw [show ((2 : ℕ) = 1 + 1) from rfl, Function.iterate_add_apply, iterC1,
    Function.iterate_one, tickC2]

theorem iterC3 : (Implementacion.QueueModel.step uOnce dBig)^[3]
    (Implementacion.QueueModel.init 1 (67/100) 1 5) = mC 3 := by
  rw [show ((3 : ℕ) = 1 + 2) from rfl, Function.iterate_add_apply, iterC2,
    Function.iterate_one, tickC3]

theorem iterC4 : (Implementacion.QueueModel.step uOnce dBig)^[4]
    (Implementacion.QueueModel.init 1 (67/100) 1 5) = mC 4 := by
  rw [show ((4 : ℕ) = 1 + 3) from rfl, Function.iterate_add_apply, iterC3,
    Function.iterate_one, tickC4]

theorem iterC5 : (Implementacion.QueueModel.step uOnce dBig)^[5]
    (Implementacion.QueueModel.init 1 (67/100) 1 5) = mC 5 := by
  rw [show ((5 : ℕ) = 1 + 4) from rfl, Function.iterate_add_apply, iterC4,
    Function.iterate_one, tickC5]

end Scenario


namespace Scenario

theorem iterB1 : (Implementacion.QueueModel.step uEvery dShort)^[1] model = mB1 := by
  rw [show (Implementacion.QueueModel.step uEvery dShort)^[1] model
      = Implementacion.QueueModel.step uEvery dShort model from rfl, model_eq, tickB1]

theorem iterB2 : (Implementacion.QueueModel.step uEvery dShort)^[2] model = mB2 := by
  rw [show (Implementacion.QueueModel.step uEvery dShort)^[2] model
      = Implementacion.QueueModel.step uEvery dShort
          (Implementacion.QueueModel.step uEvery dShort model) from rfl,
    model_eq, tickB1, tickB2]

theorem iterB3 : (Implementacion.QueueModel.step uEvery dShort)^[3] model = mB3 := by
  rw [show (Implementacion.QueueModel.step uEvery dShort)^[3] model
      = Implementacion.QueueModel.step uEvery dShort
          (Implementacion.QueueModel.step uEvery dShort
            (Implementacion.QueueModel.step uEvery dShort model)) from rfl,
    model_eq, tickB1, tickB2, tickB3]

theorem iterB4 : (Implementacion.QueueModel.step uEvery dShort)^[4] model = mB4 := by
  rw [show (Implementacion.QueueModel.step uEvery dShort)^[4] model
      = Implementacion.QueueModel.step uEvery dShort
          (Implementacion.QueueModel.step uEvery dShort
            (Implementacion.QueueModel.step uEvery dShort
              (Implementacion.QueueModel.step uEvery dShort model))) from rfl,
    model_eq, tickB1, tickB2, tickB3, tickB4]

/-- The `servers_busy` samples of the full `grafica.py` run on the
`uOnce`/`dBig` sample path: one busy server at the end of every tick. -/
theorem gsamples :
    (Grafica.GQueueModel.finalState uOnce dBig 1 (67/100) 1 5).servers_busy
      = [1, 1, 1, 1, 1] := by
  unfold Grafica.GQueueModel.finalState
  rw [show ((5 : ℤ).toNat) = 5 from rfl]
  have hsb := Grafica.GQueueModel.iterate_servers_busy uOnce dBig 1 (67/100) 1 5 5
  rw [show min 5 ((5 : ℤ).toNat) = 5 from rfl, show List.range 5 = [0, 1, 2, 3, 4] from rfl]
    at hsb
  simp only [List.map_cons, List.map_nil] at hsb
  rw [show (0 + 1 : ℕ) = 1 from rfl, show (1 + 1 : ℕ) = 2 from rfl,
    show (2 + 1 : ℕ) = 3 from rfl, show (3 + 1 : ℕ) = 4 from rfl,
    show (4 + 1 : ℕ) = 5 from rfl] at hsb
  rw [iterC1, iterC2, iterC3, iterC4, iterC5] at hsb
  rw [hsb]
  decide

end Scenario


/-! ### The simulation invariant of `implementacion.py`

`Inv svs m k` is the inductive invariant of the engine: `k` is the dequeue
frontier.  Customers `0 … k-1` have been dequeued in FIFO order (each with a
recorded service-entry tick between its arrival tick and the clock, and these
ticks are monotone in the customer index), and the queue holds exactly the
store indices `k … customers.length - 1` in order.  The counters and running
totals are tied to the state.  The server list is passed explicitly because
the scheduler threads it separately through the per-server steps. -/

namespace Implementacion

/-- Membership in a unit-step `range'`. -/
theorem mem_range'_iff (s n m : ℕ) : m ∈ List.range' s n ↔ s ≤ m ∧ m < s + n := by
  rw [List.mem_range']
  constructor
  · rintro ⟨i, hi, rfl⟩
    omega
  · intro h
    exact ⟨m - s, by omega, by omega⟩

theorem getD_set_ne {α : Type} [Inhabited α] {l : List α} {i j : ℕ} (a : α)
    (h : i ≠ j) : (l.set i a).getD j default = l.getD j default := by
  simp [List.getD_eq_getElem?_getD, List.getElem?_set_ne h]

theorem getD_set_self {α : Type} [Inhabited α] {l : List α} {i : ℕ} (a : α)
    (h : i < l.length) : (l.set i a).getD i default = a := by
  simp [List.getD_eq_getElem?_getD, List.getElem?_set_self h]

theorem getD_append_left {α : Type} [Inhabited α] {l l' : List α} {i : ℕ}
    (h : i < l.length) : (l ++ l').getD i default = l.getD i default := by
  simp [List.getD_eq_getElem?_getD, List.getElem?_append_left h]

theorem getD_append_length {α : Type} [Inhabited α] {l : List α} (a : α) :
    (l ++ [a]).getD l.length default = a := by
  simp [List.getD_eq_getElem?_getD, List.getElem?_append_right (Nat.le_refl _)]

theorem countBusy_append (l1 l2 : List Server) :
    countBusy (l1 ++ l2) = countBusy l1 + countBusy l2 :=
  List.countP_append _ _ _

theorem countBusy_cons (sv : Server) (l : List Server) :
    countBusy (sv :: l)
      = countBusy l + (if sv.customer_being_served.isSome then 1 else 0) :=
  List.countP_cons _ _ _

/-- The service-entry tick recorded for customer `i` (0 when unset). -/
def dispatchTick (m : QueueModel) (i : ℕ) : ℕ :=
  ((m.customers.getD i default).time_entered_service).getD 0

/-- The inductive invariant; see the section header. -/
structure Inv (svs : List Server) (m : QueueModel) (k : ℕ) : Prop where
  hk : k + m.queue.length = m.customers.length
  hq : m.queue = List.range' k m.queue.length
  harr : m.total_queue_throughput = m.customers.length
  hcount : m.total_queue_throughput
      = m.total_system_throughput + countBusy svs + m.queue.length
  hheld : ∀ sv ∈ svs, ∀ i, sv.customer_being_served = some i → i < k
  hts : ∀ i < k, ∃ v, (m.customers.getD i default).time_entered_service = some v ∧
      (m.customers.getD i default).time_entered_queue ≤ v ∧ v ≤ m.time
  hfifo : ∀ i j, i ≤ j → j < k → dispatchTick m i ≤ dispatchTick m j
  harrtime : ∀ i < m.customers.length,
      (m.customers.getD i default).time_entered_queue ≤ m.time
  htot : 0 ≤ m.total_time_in_queue ∧ m.total_time_in_queue ≤ m.total_time_in_system

/-- The invariant over a state's own server list. -/
def InvState (m : QueueModel) (k : ℕ) : Prop := Inv m.servers m k

/-- How the running time totals may move in one step: the wait total never
decreases, and it increases by no more than the sojourn total does. -/
def TotalsStep (m m' : QueueModel) : Prop :=
  m.total_time_in_queue ≤ m'.total_time_in_queue ∧
  m'.total_time_in_queue + m.total_time_in_system
    ≤ m'.total_time_in_system + m.total_time_in_queue

theorem totalsStep_self (m : QueueModel) : TotalsStep m m :=
  ⟨le_refl _, by omega⟩

theorem totals_comp {m m' m'' : QueueModel} (h : TotalsStep m m')
    (h' : TotalsStep m' m'') : TotalsStep m m'' := by
  obtain ⟨a1, a2⟩ := h
  obtain ⟨b1, b2⟩ := h'
  exact ⟨a1.trans b1, by omega⟩

/-- The freshly constructed model satisfies the invariant with frontier 0. -/
theorem init_inv (rate svc : ℚ) (ns mt : ℤ) :
    InvState (QueueModel.init rate svc ns mt) 0 := by
  refine ⟨rfl, rfl, rfl, ?_, ?_, ?_, ?_, ?_, ⟨le_refl _, le_refl _⟩⟩
  · show (0 : ℕ) = 0 + countBusy _ + 0
    have h0 : countBusy (QueueModel.init rate svc ns mt).servers = 0 := by
      rw [countBusy, List.countP_eq_zero]
      intro sv hsv
      obtain ⟨_, _, rfl⟩ := List.mem_map.1 hsv
      simp
    omega
  · intro sv hsv i hi
    obtain ⟨_, _, rfl⟩ := List.mem_map.1 hsv
    exact absurd hi (by simp)
  · intro i hi
    omega
  · intro i j _ hj
    omega
  · intro i hi
    simp [QueueModel.init] at hi

end Implementacion


namespace Implementacion

/-- Completion phase of `ServerAgent.step` preserves the invariant: the busy
server `sv` (serving customer `ci`) goes idle, the completion is counted and
the customer's wait and sojourn times are folded into the totals.  The wait
added is the recorded service-entry tick minus the arrival tick, which lies
between 0 and the sojourn added. -/
theorem completion_inv {l1 l2 : List Server} {sv : Server} {m : QueueModel} {k : ℕ}
    {ci : ℕ} (h : Inv (l1 ++ sv :: l2) m k) (hc : sv.customer_being_served = some ci)
    (t : ℕ) (ht : t = m.time) :
    Inv (l1 ++ { sv with customer_being_served := none } :: l2)
      { m with
          total_time_in_system := m.total_time_in_system
            + ((t : ℤ) - ((m.customers.getD ci default).time_entered_queue : ℤ)),
          total_time_in_queue := m.total_time_in_queue
            + (((m.customers.getD ci default).time_entered_service.getD 0 : ℤ)
                - ((m.customers.getD ci default).time_entered_queue : ℤ)),
          total_system_throughput := m.total_system_throughput + 1 } k
    ∧ TotalsStep m
      { m with
          total_time_in_system := m.total_time_in_system
            + ((t : ℤ) - ((m.customers.getD ci default).time_entered_queue : ℤ)),
          total_time_in_queue := m.total_time_in_queue
            + (((m.customers.getD ci default).time_entered_service.getD 0 : ℤ)
                - ((m.customers.getD ci default).time_entered_queue : ℤ)),
          total_system_throughput := m.total_system_throughput + 1 } := by
  subst ht
  obtain ⟨hk, hq, harr, hcount, hheld, hts, hfifo, harrtime, htot⟩ := h
  have hci : ci < k := hheld sv (by simp) ci hc
  obtain ⟨v, hv1, hv2, hv3⟩ := hts ci hci
  have hcbold : countBusy (l1 ++ sv :: l2) = countBusy l1 + countBusy l2 + 1 := by
    rw [countBusy_append, countBusy_cons, hc]
    simp
    omega
  have hcbnew : countBusy (l1 ++ { sv with customer_being_served := none } :: l2)
      = countBusy l1 + countBusy l2 := by
    rw [countBusy_append, countBusy_cons]
    simp
  have htotq : ((m.customers.getD ci default).time_entered_service.getD 0 : ℤ)
      = (v : ℤ) := by rw [hv1]; rfl
  obtain ⟨ht1, ht2⟩ := htot
  constructor
  · refine ⟨hk, hq, harr, ?_, ?_, hts, hfifo, harrtime, ?_⟩
    · dsimp only
      rw [hcbnew]
      rw [hcbold] at hcount
      omega
    · intro sv' hmem i hi
      rcases List.mem_append.1 hmem with h1 | h2
      · exact hheld sv' (List.mem_append_left _ h1) i hi
      · rcases List.mem_cons.1 h2 with rfl | h3
        · simp at hi
        · exact hheld sv' (List.mem_append_right _ (List.mem_cons_of_mem _ h3)) i hi
    · dsimp only
      rw [htotq]
      omega
  · unfold TotalsStep
    dsimp only
    rw [htotq]
    omega

/-- Dispatch phase of `ServerAgent.step` preserves the invariant: the idle
server pops the queue head — which is exactly the frontier customer `k` —
stamps its service-entry tick with the current tick, and the frontier
advances to `k + 1`. -/
theorem dispatch_inv {l1 l2 : List Server} {sv : Server} {m : QueueModel} {k : ℕ}
    {qh : ℕ} {qtl : List ℕ} (h : Inv (l1 ++ sv :: l2) m k)
    (hqe : m.queue = qh :: qtl) (hc : sv.customer_being_served = none)
    (t : ℕ) (ht : t = m.time) (d : ℚ) :
    qh = k ∧
    Inv (l1 ++ { customer_being_served := some qh,
                 next_completion_time := (t : ℚ) + d } :: l2)
      { m with
          queue := qtl,
          customers := m.customers.set qh
            { m.customers.getD qh default with time_entered_service := some t } }
      (k + 1) := by
  subst ht
  obtain ⟨hk, hq, harr, hcount, hheld, hts, hfifo, harrtime, htot⟩ := h
  have hlen : m.queue.length = qtl.length + 1 := by rw [hqe]; rfl
  rw [hqe] at hq
  simp only [List.length_cons] at hq
  rw [List.range'_succ] at hq
  injection hq with h1 h2
  subst h1
  have klen : qh < m.customers.length := by omega
  have hcbold : countBusy (l1 ++ sv :: l2) = countBusy l1 + countBusy l2 := by
    rw [countBusy_append, countBusy_cons, hc]
    simp
  refine ⟨rfl, ?_, h2, ?_, ?_, ?_, ?_, ?_, ?_, htot⟩
  · dsimp only
    rw [List.length_set]
    omega
  · dsimp only
    rw [List.length_set]
    exact harr
  · dsimp only
    rw [countBusy_append, countBusy_cons]
    rw [hcbold] at hcount
    simp only [Option.isSome_some, if_pos]
    omega
  · intro sv' hmem i hi
    rcases List.mem_append.1 hmem with hm1 | hm2
    · exact Nat.lt_succ_of_lt (hheld sv' (List.mem_append_left _ hm1) i hi)
    · rcases List.mem_cons.1 hm2 with rfl | hm3
      · simp only at hi
        injection hi with hi
        omega
      · exact Nat.lt_succ_of_lt
          (hheld sv' (List.mem_append_right _ (List.mem_cons_of_mem _ hm3)) i hi)
  · intro i hi
    dsimp only
    by_cases hik : i < qh
    · rw [getD_set_ne _ (by omega : qh ≠ i)]
      obtain ⟨v, hv1, hv2, hv3⟩ := hts i hik
      exact ⟨v, hv1, hv2, hv3⟩
    · have : i = qh := by omega
      subst this
      rw [getD_set_self _ klen]
      exact ⟨m.time, rfl, harrtime i klen, le_refl _⟩
  · intro i j hij hj
    unfold dispatchTick
    dsimp only
    by_cases hjk : j < qh
    · rw [getD_set_ne _ (by omega : qh ≠ i), getD_set_ne _ (by omega : qh ≠ j)]
      exact hfifo i j hij hjk
    · have hjeq : j = qh := by omega
      subst hjeq
      rw [getD_set_self _ klen]
      by_cases hik : i < j
      · rw [getD_set_ne _ (by omega : j ≠ i)]
        obtain ⟨v, hv1, hv2, hv3⟩ := hts i hik
        rw [hv1]
        simpa using hv3
      · have : i = j := by omega
        subst this
        rw [getD_set_self _ klen]
  · intro i hi
    dsimp only at hi ⊢
    rw [List.length_set] at hi
    by_cases hik : i = qh
    · subst hik
      rw [getD_set_self _ klen]
      exact harrtime i klen
    · rw [getD_set_ne _ (by omega : qh ≠ i)]
      exact harrtime i hi

/-- One server's `step` preserves the invariant: the frontier can only grow,
and the totals move by a wait increment that is at most the sojourn
increment. -/
theorem ServerAgent.step_inv (t : ℕ) (d : ℚ) (l1 l2 : List Server) {sv : Server}
    {m : QueueModel} {k : ℕ} (h : Inv (l1 ++ sv :: l2) m k) (ht : t = m.time) :
    ∃ k', k ≤ k' ∧
      Inv (l1 ++ (ServerAgent.step t d sv m).1 :: l2) (ServerAgent.step t d sv m).2 k' ∧
      TotalsStep m (ServerAgent.step t d sv m).2 := by
  unfold ServerAgent.step
  rcases hqe : m.queue with _ | ⟨qh, qtl⟩ <;> rcases hc : sv.customer_being_served with _ | ci
  · simp only [hqe, hc]
    exact ⟨k, le_refl _, h, totalsStep_self m⟩
  · simp only [hqe, hc]
    by_cases hle : sv.next_completion_time ≤ (t : ℚ)
    · rw [if_pos hle]
      obtain ⟨hi, htot⟩ := completion_inv h hc t ht
      rw [hqe] at hi htot
      exact ⟨k, le_refl _, hi, htot⟩
    · rw [if_neg hle]
      exact ⟨k, le_refl _, h, totalsStep_self m⟩
  · simp only [hqe, hc]
    obtain ⟨hqh, hinv⟩ := dispatch_inv h hqe hc t ht d
    by_cases hle : ((t : ℚ) + d) ≤ (t : ℚ)
    · rw [if_pos hle]
      obtain ⟨hi, htot⟩ := completion_inv hinv rfl t ht
      exact ⟨k + 1, Nat.le_succ k, hi, htot⟩
    · rw [if_neg hle]
      exact ⟨k + 1, Nat.le_succ k, hinv, totalsStep_self m⟩
  · simp only [hqe, hc]
    by_cases hle : sv.next_completion_time ≤ (t : ℚ)
    · rw [if_pos hle]
      obtain ⟨hi, htot⟩ := completion_inv h hc t ht
      rw [hqe] at hi htot
      exact ⟨k, le_refl _, hi, htot⟩
    · rw [if_neg hle]
      exact ⟨k, le_refl _, h, totalsStep_self m⟩

/-- The whole server phase preserves the invariant. -/
theorem stepServerList_inv (dur : ℕ → ℕ → ℚ) (t : ℕ) :
    ∀ (todo done : List Server) (si : ℕ) (m : QueueModel) (k : ℕ),
      Inv (done ++ todo) m k → t = m.time →
      ∃ k', k ≤ k' ∧
        Inv (done ++ (stepServerList dur t si todo m).1)
          (stepServerList dur t si todo m).2 k' ∧
        TotalsStep m (stepServerList dur t si todo m).2 := by
  intro todo
  induction todo with
  | nil =>
      intro done si m k h ht
      exact ⟨k, le_refl _, by simpa [stepServerList] using h, totalsStep_self m⟩
  | cons sv tl ih =>
      intro done si m k h ht
      obtain ⟨k1, hk1, hinv1, htot1⟩ :=
        ServerAgent.step_inv t (dur si t) done tl h ht
      have ht1 : t = (ServerAgent.step t (dur si t) sv m).2.time := by
        rw [(ServerAgent.step_frame t (dur si t) sv m).time]
        exact ht
      have hre : done ++ (ServerAgent.step t (dur si t) sv m).1 :: tl
          = (done ++ [(ServerAgent.step t (dur si t) sv m).1]) ++ tl := by simp
      rw [hre] at hinv1
      obtain ⟨k2, hk2, hinv2, htot2⟩ :=
        ih (done ++ [(ServerAgent.step t (dur si t) sv m).1]) (si + 1)
          (ServerAgent.step t (dur si t) sv m).2 k1 hinv1 ht1
      refine ⟨k2, hk1.trans hk2, ?_, totals_comp htot1 htot2⟩
      rw [stepServerList]
      simpa using hinv2

theorem CustomerAgent.step_of_not_mem (t : ℕ) {q : List ℕ} {i : ℕ} (c : Customer)
    (h : i ∉ q) : CustomerAgent.step t q i c = c := by
  unfold CustomerAgent.step
  rw [if_neg]
  rintro ⟨-, hmem⟩
  exact h hmem

theorem CustomerAgent.step_tq (t : ℕ) (q : List ℕ) (i : ℕ) (c : Customer) :
    (CustomerAgent.step t q i c).time_entered_queue = c.time_entered_queue := by
  unfold CustomerAgent.step
  split <;> rfl

theorem stepCustomers_length (t : ℕ) (q : List ℕ) :
    ∀ (cs : List Customer) (i0 : ℕ), (stepCustomers t q i0 cs).length = cs.length := by
  intro cs
  induction cs with
  | nil => intro i0; rfl
  | cons c tl ih => intro i0; simp [stepCustomers, ih]

theorem stepCustomers_getD (t : ℕ) (q : List ℕ) :
    ∀ (cs : List Customer) (i0 j : ℕ), j < cs.length →
      (stepCustomers t q i0 cs).getD j default
        = CustomerAgent.step t q (i0 + j) (cs.getD j default) := by
  intro cs
  induction cs with
  | nil =>
      intro i0 j hj
      simp at hj
  | cons c tl ih =>
      intro i0 j hj
      cases j with
      | zero => simp [stepCustomers]
      | succ j =>
          simp only [stepCustomers, List.getD_cons_succ]
          rw [ih (i0 + 1) j (by simpa using hj)]
          have harg : i0 + 1 + j = i0 + (j + 1) := by omega
          rw [harg]

/-- The customer phase and the clock advance preserve the invariant: only
customers still in the queue may have their `time_entered_service` field
touched, and those are outside the frontier, on which the invariant's
service-entry facts are stated. -/
theorem customers_time_wrap_inv {svs newsvs : List Server} {m : QueueModel} {k : ℕ}
    (h : Inv svs m k) (t : ℕ) (ht : t = m.time) :
    Inv svs
      { m with
        servers := newsvs,
        customers := stepCustomers t m.queue 0 m.customers,
        time := t + 1 } k := by
  subst ht
  obtain ⟨hk, hq, harr, hcount, hheld, hts, hfifo, harrtime, htot⟩ := h
  have hnotmem : ∀ i, i < k → i ∉ m.queue := by
    intro i hi hmem
    rw [hq] at hmem
    rw [mem_range'_iff] at hmem
    omega
  have hsame : ∀ i, i < k →
      (stepCustomers m.time m.queue 0 m.customers).getD i default
        = m.customers.getD i default := by
    intro i hi
    have hilen : i < m.customers.length := by omega
    rw [stepCustomers_getD m.time m.queue m.customers 0 i hilen]
    simpa using CustomerAgent.step_of_not_mem m.time _ (hnotmem i hi)
  refine ⟨?_, hq, ?_, hcount, hheld, ?_, ?_, ?_, htot⟩
  · dsimp only
    rw [stepCustomers_length]
    exact hk
  · dsimp only
    rw [stepCustomers_length]
    exact harr
  · intro i hi
    dsimp only
    rw [hsame i hi]
    obtain ⟨v, hv1, hv2, hv3⟩ := hts i hi
    exact ⟨v, hv1, hv2, by omega⟩
  · intro i j hij hj
    unfold dispatchTick
    dsimp only
    rw [hsame i (by omega), hsame j hj]
    exact hfifo i j hij hj
  · intro i hi
    dsimp only at hi ⊢
    rw [stepCustomers_length] at hi
    rw [stepCustomers_getD m.time m.queue m.customers 0 i hi]
    rw [CustomerAgent.step_tq]
    have := harrtime i hi
    omega

/-- Admission of one customer preserves the invariant: the new customer is
appended both to the store and to the queue tail, keeping the queue the
contiguous block of not-yet-dequeued store indices. -/
theorem arrival_inv {m : QueueModel} {k : ℕ} (h : InvState m k) :
    InvState
      { m with
        customers := m.customers
          ++ [{ time_entered_queue := m.time, time_entered_service := none }],
        queue := m.queue ++ [m.customers.length],
        total_queue_throughput := m.total_queue_throughput + 1 } k := by
  obtain ⟨hk, hq, harr, hcount, hheld, hts, hfifo, harrtime, htot⟩ := h
  have hlen : m.queue.length = m.customers.length - k := by omega
  refine ⟨?_, ?_, ?_, ?_, hheld, ?_, ?_, ?_, htot⟩
  · dsimp only
    rw [List.length_append, List.length_append]
    simp
    omega
  · dsimp only
    rw [List.length_append]
    simp only [List.length_singleton]
    rw [List.range'_concat]
    rw [← hq]
    have : k + 1 * m.queue.length = m.customers.length := by omega
    rw [this]
  · dsimp only
    rw [List.length_append]
    simp
    omega
  · dsimp only
    rw [List.length_append]
    simp
    omega
  · intro i hi
    dsimp only
    rw [getD_append_left (by omega)]
    exact hts i hi
  · intro i j hij hj
    unfold dispatchTick
    dsimp only
    rw [getD_append_left (by omega), getD_append_left (by omega)]
    exact hfifo i j hij hj
  · intro i hi
    dsimp only at hi ⊢
    rw [List.length_append] at hi
    simp only [List.length_singleton] at hi
    by_cases hilen : i < m.customers.length
    · rw [getD_append_left hilen]
      exact harrtime i hilen
    · have : i = m.customers.length := by omega
      subst this
      rw [getD_append_length]

/-- One scheduler tick preserves the invariant. -/
theorem QueueModel.scheduleStep_inv (dur : ℕ → ℕ → ℚ) {m : QueueModel} {k : ℕ}
    (h : InvState m k) :
    ∃ k', k ≤ k' ∧ InvState (m.scheduleStep dur) k'
      ∧ TotalsStep m (m.scheduleStep dur) := by
  obtain ⟨k', hk', hinv, htot⟩ :=
    stepServerList_inv dur m.time m.servers [] 0 m k (by simpa using h) rfl
  have hinv' : Inv (stepServerList dur m.time 0 m.servers m).1
      (stepServerList dur m.time 0 m.servers m).2 k' := by simpa using hinv
  have htime : m.time = (stepServerList dur m.time 0 m.servers m).2.time :=
    ((stepServerList_frame dur m.time 0 m.servers m).time).symm
  refine ⟨k', hk', ?_, ?_⟩
  · exact customers_time_wrap_inv hinv' m.time htime
  · exact htot

/-- One full model tick preserves the invariant, grows the frontier
monotonically, and moves the totals by a wait increment bounded by the
sojourn increment. -/
theorem QueueModel.model_step_inv (u : ℕ → ℚ) (dur : ℕ → ℕ → ℚ) {m : QueueModel} {k : ℕ}
    (h : InvState m k) :
    ∃ k', k ≤ k' ∧ InvState (m.step u dur) k' ∧ TotalsStep m (m.step u dur) := by
  unfold QueueModel.step
  by_cases hg : (m.time : ℤ) < m.max_ticks
  · rw [if_pos hg]
    by_cases ha : u m.time < m.mean_arrival_rate
    · simp only [if_pos ha]
      have h1 := arrival_inv h
      obtain ⟨k', hk', hinv, htot⟩ := QueueModel.scheduleStep_inv dur h1
      exact ⟨k', hk', hinv, htot⟩
    · simp only [if_neg ha]
      exact QueueModel.scheduleStep_inv dur h
  · rw [if_neg hg]
    exact ⟨k, le_refl _, h, totalsStep_self m⟩

/-- The invariant holds after any number of ticks from a fresh model. -/
theorem iterate_inv (u : ℕ → ℚ) (dur : ℕ → ℕ → ℚ) (rate svc : ℚ) (ns mt : ℤ) :
    ∀ n : ℕ, ∃ k,
      InvState ((QueueModel.step u dur)^[n] (QueueModel.init rate svc ns mt)) k := by
  intro n
  induction n with
  | zero => exact ⟨0, init_inv rate svc ns mt⟩
  | succ n ih =>
      obtain ⟨k, hk⟩ := ih
      obtain ⟨k', _, hinv, _⟩ := QueueModel.model_step_inv u dur hk
      rw [Function.iterate_succ_apply']
      exact ⟨k', hinv⟩

theorem ServerAgent.step_completed_le (t : ℕ) (d : ℚ) (sv : Server) (m : QueueModel) :
    m.total_system_throughput ≤ (ServerAgent.step t d sv m).2.total_system_throughput := by
  unfold ServerAgent.step
  rcases hq : m.queue with _ | ⟨qh, qtl⟩ <;>
    rcases hc : sv.customer_being_served with _ | ci <;>
      simp only [hq, hc] <;> (try split) <;> (try dsimp only) <;> omega

theorem stepServerList_completed_le (dur : ℕ → ℕ → ℚ) (t : ℕ) :
    ∀ (todo : List Server) (si : ℕ) (m : QueueModel),
      m.total_system_throughput
        ≤ (stepServerList dur t si todo m).2.total_system_throughput := by
  intro todo
  induction todo with
  | nil =>
      intro si m
      exact le_refl _
  | cons sv tl ih =>
      intro si m
      rw [stepServerList]
      exact (ServerAgent.step_completed_le t (dur si t) sv m).trans
        (ih (si + 1) (ServerAgent.step t (dur si t) sv m).2)

theorem QueueModel.scheduleStep_completed_le (dur : ℕ → ℕ → ℚ) (m : QueueModel) :
    m.total_system_throughput ≤ (m.scheduleStep dur).total_system_throughput := by
  unfold QueueModel.scheduleStep
  dsimp only
  exact stepServerList_completed_le dur m.time m.servers 0 m

theorem QueueModel.scheduleStep_arrived_eq (dur : ℕ → ℕ → ℚ) (m : QueueModel) :
    (m.scheduleStep dur).total_queue_throughput = m.total_queue_throughput := by
  unfold QueueModel.scheduleStep
  dsimp only
  exact (stepServerList_frame dur m.time 0 m.servers m).total_queue_throughput

theorem QueueModel.step_completed_mono (u : ℕ → ℚ) (dur : ℕ → ℕ → ℚ) (m : QueueModel) :
    m.total_system_throughput ≤ (m.step u dur).total_system_throughput := by
  unfold QueueModel.step
  by_cases hg : (m.time : ℤ) < m.max_ticks
  · rw [if_pos hg]
    by_cases ha : u m.time < m.mean_arrival_rate
    · rw [if_pos ha]
      exact QueueModel.scheduleStep_completed_le dur
        { m with
          customers := m.customers
            ++ [{ time_entered_queue := m.time, time_entered_service := none }],
          queue := m.queue ++ [m.customers.length],
          total_queue_throughput := m.total_queue_throughput + 1 }
    · rw [if_neg ha]
      exact QueueModel.scheduleStep_completed_le dur m
  · rw [if_neg hg]

theorem QueueModel.step_arrived_le (u : ℕ → ℚ) (dur : ℕ → ℕ → ℚ) (m : QueueModel) :
    m.total_queue_throughput ≤ (m.step u dur).total_queue_throughput := by
  unfold QueueModel.step
  by_cases hg : (m.time : ℤ) < m.max_ticks
  · rw [if_pos hg]
    by_cases ha : u m.time < m.mean_arrival_rate
    · rw [if_pos ha]
      have := QueueModel.scheduleStep_arrived_eq dur
        { m with
          customers := m.customers
            ++ [{ time_entered_queue := m.time, time_entered_service := none }],
          queue := m.queue ++ [m.customers.length],
          total_queue_throughput := m.total_queue_throughput + 1 }
      dsimp only at this ⊢
      omega
    · rw [if_neg ha]
      exact le_of_eq (QueueModel.scheduleStep_arrived_eq dur m).symm
  · rw [if_neg hg]

end Implementacion

namespace Scenario

theorem iterA5 : (Implementacion.QueueModel.step uThrice dTwo)^[5]
    (Implementacion.QueueModel.init 1 (67/100) 1 5) = mA5 := by
  rw [show (Implementacion.QueueModel.step uThrice dTwo)^[5]
        (Implementacion.QueueModel.init 1 (67/100) 1 5)
      = Implementacion.QueueModel.step uThrice dTwo
          (Implementacion.QueueModel.step uThrice dTwo
            (Implementacion.QueueModel.step uThrice dTwo
              (Implementacion.QueueModel.step uThrice dTwo
                (Implementacion.QueueModel.step uThrice dTwo
                  (Implementacion.QueueModel.init 1 (67/100) 1 5))))) from rfl,
    minit, tickA1, tickA2, tickA3, tickA4, tickA5]

end Scenario

/-! ### Claims -/

open Implementacion Implementacion2 Grafica

/-- C1 counterexample: on the concrete five-tick sample path given by
`Scenario.uThrice`/`Scenario.dTwo` (arrivals at ticks 0, 1 and 4; the first
two customers complete service), the run ends with 3 arrivals, 2 completions
and an accumulated wait of 2 ticks, and `run_simulation` reports
`avg_time_in_queue = 2/3`: the accumulated wait divided by the number of
customers *arrived*, not — as the claim states — by the number of customers
*completed*, which would give `2/2 = 1`. -/
theorem C1_counterexample :
    (QueueModel.run_loop Scenario.uThrice Scenario.dTwo Scenario.model).total_time_in_queue
        = 2 ∧
    (QueueModel.run_loop Scenario.uThrice Scenario.dTwo Scenario.model).total_queue_throughput
        = 3 ∧
    (QueueModel.run_loop Scenario.uThrice Scenario.dTwo Scenario.model).total_system_throughput
        = 2 ∧
    (QueueModel.run_simulation Scenario.uThrice Scenario.dTwo Scenario.model).avg_time_in_queue
        = 2/3 ∧
    (2 : ℚ)/3 ≠ (2 : ℚ)/2 := by
  unfold QueueModel.run_simulation Scenario.model
  rw [QueueModel.run_loop_init]
  rw [show QueueModel.finalState Scenario.uThrice Scenario.dTwo 1 (67/100) 1 5
      = QueueModel.step Scenario.uThrice Scenario.dTwo
          (QueueModel.step Scenario.uThrice Scenario.dTwo
            (QueueModel.step Scenario.uThrice Scenario.dTwo
              (QueueModel.step Scenario.uThrice Scenario.dTwo
                (QueueModel.step Scenario.uThrice Scenario.dTwo
                  (QueueModel.init 1 (67/100) 1 5))))) from rfl]
  rw [Scenario.minit, Scenario.tickA1, Scenario.tickA2, Scenario.tickA3, Scenario.tickA4,
    Scenario.tickA5]
  refine ⟨rfl, rfl, rfl, ?_, by norm_num⟩
  norm_num [QueueModel.metrics, Scenario.mA5, Scenario.m0]

/-- C1 (amended): at run end `implementacion.py` computes `avg_time_in_queue`
as the accumulated wait time divided by the number of customers *arrived*
(`total_queue_throughput`; sentinel 0 when no customer arrived), while
`avg_time_in_system` is the accumulated sojourn time divided by the number of
customers completed (sentinel 0 when none completed).  In
`implementacion2.py` both averages divide by the single shared `throughput`
counter, which is incremented at every arrival and at every completion
(sentinel 0 when that counter is 0). -/
theorem C1_amended_final_metrics (u : ℕ → ℚ) (dur : ℕ → ℕ → ℚ) (rate svc : ℚ)
    (ns mt : ℤ) :
    (QueueModel.run_simulation u dur (QueueModel.init rate svc ns mt)).avg_time_in_queue
      = (if 0 < (QueueModel.finalState u dur rate svc ns mt).total_queue_throughput
         then ((QueueModel.finalState u dur rate svc ns mt).total_time_in_queue : ℚ)
                / ((QueueModel.finalState u dur rate svc ns mt).total_queue_throughput : ℚ)
         else 0) ∧
    (QueueModel.run_simulation u dur (QueueModel.init rate svc ns mt)).avg_time_in_system
      = (if 0 < (QueueModel.finalState u dur rate svc ns mt).total_system_throughput
         then ((QueueModel.finalState u dur rate svc ns mt).total_time_in_system : ℚ)
                / ((QueueModel.finalState u dur rate svc ns mt).total_system_throughput : ℚ)
         else 0) ∧
    (QueueSimulation.run u dur (QueueSimulation.init rate svc ns mt)).avg_queue_time
      = (if 0 < (QueueSimulation.finalState u dur rate svc ns mt).throughput
         then ((QueueSimulation.finalState u dur rate svc ns mt).total_time_queue : ℚ)
                / ((QueueSimulation.finalState u dur rate svc ns mt).throughput : ℚ)
         else 0) ∧
    (QueueSimulation.run u dur (QueueSimulation.init rate svc ns mt)).avg_system_time
      = (if 0 < (QueueSimulation.finalState u dur rate svc ns mt).throughput
         then ((QueueSimulation.finalState u dur rate svc ns mt).total_time_system : ℚ)
                / ((QueueSimulation.finalState u dur rate svc ns mt).throughput : ℚ)
         else 0) := by
  unfold QueueModel.run_simulation QueueSimulation.run
  rw [QueueModel.run_loop_init, QueueSimulation.run_loop_init2]
  exact ⟨rfl, rfl, rfl, rfl⟩

/-- C2 (code bug): neither `QueueModel.__init__` nor
`QueueSimulation.__init__` validates its inputs.  Construction succeeds for a
zero or negative `mean_service_time`, a negative arrival probability, and
negative server counts or tick budgets, storing the invalid values verbatim;
a run with a negative server count proceeds to the end without any failure.
(In Python the `mean_service_time = 0` configuration fails only mid-run, with
a `ZeroDivisionError` from `1 / self.model.mean_service_time` at the first
dispatch, `implementacion.py` line 32 — not at construction.) -/
theorem C2_construction_accepts_invalid :
    (QueueModel.init 1 0 1 5).mean_service_time = 0 ∧
    (QueueModel.init 1 0 1 5).servers.length = 1 ∧
    (QueueModel.init (-1) (67/100) 3 1000).mean_arrival_rate = -1 ∧
    (QueueModel.init (67/100) (67/100) (-3) (-2)).number_of_servers = -3 ∧
    (QueueModel.init (67/100) (67/100) (-3) (-2)).max_ticks = -2 ∧
    (QueueModel.run_loop Scenario.uEvery Scenario.dBig
        (QueueModel.init (67/100) (67/100) (-3) 5)).time = 5 ∧
    (QueueSimulation.init 1 (-1) 1 5).mean_service_time = -1 := by
  refine ⟨by decide, by decide, by decide, by decide, by decide, ?_, by decide⟩
  rw [QueueModel.run_loop_init]
  unfold QueueModel.finalState
  rw [(QueueModel.iterate_time Scenario.uEvery Scenario.dBig ((5 : ℤ).toNat)
    (QueueModel.init (67/100) (67/100) (-3) 5)).1]
  decide

/-- C5 counterexample: on the sample path `Scenario.uOnce`/`Scenario.dBig`
(one arrival at tick 0, whose service never finishes within the five-tick
run), the per-tick busy-server counts are 1, 1, 1, 1, 1, so their mean — and
`grafica.py`'s reported `avg_servers_busy` — is 1, while `implementacion.py`
reports `1/5`: it divides the busy-server count of the *final state* by
`schedule.time` instead of averaging per-tick samples, so the two variants do
not compute the same value for identical runs. -/
theorem C5_counterexample :
    (QueueModel.run_simulation Scenario.uOnce Scenario.dBig Scenario.model).avg_servers_busy
        = 1/5 ∧
    (GQueueModel.run_simulation Scenario.uOnce Scenario.dBig Scenario.gmodel).avg_servers_busy
        = 1 ∧
    (GQueueModel.run_loop Scenario.uOnce Scenario.dBig Scenario.gmodel).servers_busy
        = [1, 1, 1, 1, 1] ∧
    ((1 : ℚ)/5 ≠ 1) := by
  unfold QueueModel.run_simulation GQueueModel.run_simulation Scenario.model Scenario.gmodel
  rw [QueueModel.run_loop_init, GQueueModel.grun_loop_init]
  rw [show QueueModel.finalState Scenario.uOnce Scenario.dBig 1 (67/100) 1 5
      = QueueModel.step Scenario.uOnce Scenario.dBig
          (QueueModel.step Scenario.uOnce Scenario.dBig
            (QueueModel.step Scenario.uOnce Scenario.dBig
              (QueueModel.step Scenario.uOnce Scenario.dBig
                (QueueModel.step Scenario.uOnce Scenario.dBig
                  (QueueModel.init 1 (67/100) 1 5))))) from rfl]
  rw [Scenario.minit, Scenario.tickC1, Scenario.tickC2, Scenario.tickC3, Scenario.tickC4,
    Scenario.tickC5]
  rw [Scenario.gsamples]
  refine ⟨?_, ?_, rfl, by norm_num⟩
  · norm_num [QueueModel.metrics, Scenario.mC, Scenario.m0, Implementacion.countBusy]
  · norm_num [GQueueModel.metrics, Scenario.gsamples]

/-- C5 (amended): `grafica.py` computes `avg_servers_busy` as the mean of the
per-tick busy-server samples — and it records exactly one sample per executed
tick, the busy-server count at the end of that tick, so the mean equals
busy-server-ticks divided by total ticks — whereas `implementacion.py`
divides the busy-server count of the final state by `schedule.time`; the two
variants disagree on identical runs. -/
theorem C5_amended_servers_busy (u : ℕ → ℚ) (dur : ℕ → ℕ → ℚ) (rate svc : ℚ)
    (ns mt : ℤ) :
    (GQueueModel.run_loop u dur (GQueueModel.init rate svc ns mt)).servers_busy
      = (List.range mt.toNat).map
          (fun k => countBusy
            (((QueueModel.step u dur)^[k + 1] (QueueModel.init rate svc ns mt)).servers)) ∧
    (GQueueModel.run_simulation u dur (GQueueModel.init rate svc ns mt)).avg_servers_busy
      = (if 0 < mt.toNat
         then (((GQueueModel.run_loop u dur (GQueueModel.init rate svc ns mt)).servers_busy.sum : ℕ) : ℚ)
                / (mt.toNat : ℚ)
         else 0) ∧
    (QueueModel.run_simulation u dur (QueueModel.init rate svc ns mt)).avg_servers_busy
      = (if 0 < mt.toNat
         then (countBusy (QueueModel.finalState u dur rate svc ns mt).servers : ℚ)
                / (mt.toNat : ℚ)
         else 0) := by
  have hsamp := GQueueModel.iterate_servers_busy u dur rate svc ns mt mt.toNat
  rw [min_self] at hsamp
  have hloop : GQueueModel.run_loop u dur (GQueueModel.init rate svc ns mt)
      = (GQueueModel.step u dur)^[mt.toNat] (GQueueModel.init rate svc ns mt) :=
    GQueueModel.grun_loop_init u dur rate svc ns mt
  refine ⟨by rw [hloop, hsamp], ?_, ?_⟩
  · unfold GQueueModel.run_simulation GQueueModel.metrics
    rw [hloop, hsamp]
    simp only [List.length_map, List.length_range]
  · unfold QueueModel.run_simulation QueueModel.metrics
    rw [QueueModel.run_loop_init]
    unfold QueueModel.finalState
    have ht := (QueueModel.iterate_time u dur mt.toNat (QueueModel.init rate svc ns mt)).1
    rw [ht]
    have : min ((QueueModel.init rate svc ns mt).time + mt.toNat)
        (max (QueueModel.init rate svc ns mt).time
          (QueueModel.init rate svc ns mt).max_ticks.toNat) = mt.toNat := by
      show min (0 + mt.toNat) (max 0 mt.toNat) = mt.toNat
      omega
    rw [this]

/-- C6 (code bug): `CustomerAgent.step` writes `time_entered_service` while
the customer is still *waiting* in the queue (its own docstring says it
should record the time when the customer is being served, but the guard
tests membership in the queue).  On the sample path
`Scenario.uEvery`/`Scenario.dShort`, customer 1 arrives at tick 1 and is
still queued at the end of tick 1, yet its `time_entered_service` is already
`some 1`; when server 0 dequeues it at tick 3 the field is overwritten to
`some 3` — so the field is not `None` while waiting and is written twice,
not exactly once at dequeue. -/
theorem C6_service_start_written_while_waiting :
    ((QueueModel.step Scenario.uEvery Scenario.dShort)^[2] Scenario.model).queue = [1] ∧
    (((QueueModel.step Scenario.uEvery Scenario.dShort)^[2]
        Scenario.model).customers.getD 1 default).time_entered_service = some 1 ∧
    (((QueueModel.step Scenario.uEvery Scenario.dShort)^[4]
        Scenario.model).customers.getD 1 default).time_entered_service = some 3 := by
  rw [Scenario.iterB2, Scenario.iterB4]
  decide

/-- C7 counterexample: on the sample path `Scenario.uEvery`/`Scenario.dShort`
server 0 completes its first episode during tick 2 (`total_system_throughput`
rises from 0 to 1) while the queue is non-empty throughout that tick (it is
`[1]` before and `[1, 2]` after); yet at the end of tick 2 the server is idle
with the queue untouched — it did *not* dequeue a new customer in the tick in
which it completed — and only dequeues customer 1 during tick 3. -/
theorem C7_counterexample :
    ((QueueModel.step Scenario.uEvery Scenario.dShort)^[2]
        Scenario.model).total_system_throughput = 0 ∧
    ((QueueModel.step Scenario.uEvery Scenario.dShort)^[3]
        Scenario.model).total_system_throughput = 1 ∧
    ((QueueModel.step Scenario.uEvery Scenario.dShort)^[2] Scenario.model).queue = [1] ∧
    ((QueueModel.step Scenario.uEvery Scenario.dShort)^[3] Scenario.model).queue = [1, 2] ∧
    ((QueueModel.step Scenario.uEvery Scenario.dShort)^[3] Scenario.model).servers
        = [{ customer_being_served := none, next_completion_time := 2 }] ∧
    ((QueueModel.step Scenario.uEvery Scenario.dShort)^[4] Scenario.model).servers.map
        (fun sv => sv.customer_being_served) = [some 1] := by
  rw [Scenario.iterB2, Scenario.iterB3, Scenario.iterB4]
  decide

/-- C7 (amended): when a server completes a service episode at tick `t` it
sets `customer_being_served` to none and becomes idle, but it is eligible for
dispatch only from tick `t + 1` on: within `ServerAgent.step` the dispatch
phase precedes the completion phase, so a server that is busy when its step
begins never pops the queue during that step — it either keeps its current
customer or ends the step idle, with the queue and the customer store
unchanged.  No execution dequeues a new customer in the same tick's step
after completing one. -/
theorem C7_amended_busy_server_never_dispatches (t : ℕ) (d : ℚ)
    (sv : Implementacion.Server) (m : QueueModel) (i : ℕ)
    (h : sv.customer_being_served = some i) :
    (ServerAgent.step t d sv m).2.queue = m.queue ∧
    (ServerAgent.step t d sv m).2.customers = m.customers ∧
    ((ServerAgent.step t d sv m).1.customer_being_served = some i ∨
      (ServerAgent.step t d sv m).1.customer_being_served = none) := by
  unfold ServerAgent.step
  rcases hq : m.queue with _ | ⟨j, rest⟩ <;> simp only [hq, h] <;> split <;> simp_all

theorem C7_amended_busy_server_never_dispatches_witness :
    ({ customer_being_served := some 0, next_completion_time := 0 } :
        Implementacion.Server).customer_being_served = some 0 ∧
    ((ServerAgent.step 1 100 { customer_being_served := some 0, next_completion_time := 0 }
        Scenario.model).2.queue = Scenario.model.queue ∧
     (ServerAgent.step 1 100 { customer_being_served := some 0, next_completion_time := 0 }
        Scenario.model).2.customers = Scenario.model.customers ∧
     ((ServerAgent.step 1 100 { customer_being_served := some 0, next_completion_time := 0 }
        Scenario.model).1.customer_being_served = some 0 ∨
      (ServerAgent.step 1 100 { customer_being_served := some 0, next_completion_time := 0 }
        Scenario.model).1.customer_being_served = none)) :=
  ⟨rfl, C7_amended_busy_server_never_dispatches 1 100 _ Scenario.model 0 rfl⟩

/-- C9: for every configuration (any rates, any integer server count and tick
budget) the `while` loop of `run_simulation` terminates after exactly
`max_ticks.toNat` calls of `step`, and the tick counter after `k` steps is
`min k max_ticks.toNat` — it visits 0, 1, …, `max_ticks − 1` in order,
executing each tick exactly once, and then stays at `max_ticks` (any
customers left unserved simply remain in the final state). -/
theorem C9_run_terminates_after_max_ticks (u : ℕ → ℚ) (dur : ℕ → ℕ → ℚ)
    (rate svc : ℚ) (ns mt : ℤ) :
    QueueModel.run_loop u dur (QueueModel.init rate svc ns mt)
        = (QueueModel.step u dur)^[mt.toNat] (QueueModel.init rate svc ns mt) ∧
    (∀ k : ℕ, ((QueueModel.step u dur)^[k] (QueueModel.init rate svc ns mt)).time
        = min k mt.toNat) := by
  constructor
  · exact QueueModel.run_loop_init u dur rate svc ns mt
  · intro k
    have ht := (QueueModel.iterate_time u dur k (QueueModel.init rate svc ns mt)).1
    rw [ht]
    show min (0 + k) (max 0 mt.toNat) = min k mt.toNat
    omega

/-- C3: for every configuration and every random sample path, after every
tick the number of completed services is at most the number of customers
admitted, and both counters are monotonically non-decreasing from each tick
to the next. -/
theorem C3_completed_le_arrived_and_monotone (u : ℕ → ℚ) (dur : ℕ → ℕ → ℚ)
    (rate svc : ℚ) (ns mt : ℤ) (n : ℕ) :
    ((QueueModel.step u dur)^[n]
        (QueueModel.init rate svc ns mt)).total_system_throughput
      ≤ ((QueueModel.step u dur)^[n]
        (QueueModel.init rate svc ns mt)).total_queue_throughput ∧
    ((QueueModel.step u dur)^[n]
        (QueueModel.init rate svc ns mt)).total_queue_throughput
      ≤ ((QueueModel.step u dur)^[n + 1]
        (QueueModel.init rate svc ns mt)).total_queue_throughput ∧
    ((QueueModel.step u dur)^[n]
        (QueueModel.init rate svc ns mt)).total_system_throughput
      ≤ ((QueueModel.step u dur)^[n + 1]
        (QueueModel.init rate svc ns mt)).total_system_throughput := by
  obtain ⟨k, hinv⟩ := iterate_inv u dur rate svc ns mt n
  refine ⟨?_, ?_, ?_⟩
  · obtain ⟨hk, hq, harr, hcount, -, -, -, -, -⟩ := hinv
    omega
  · rw [Function.iterate_succ_apply']
    exact QueueModel.step_arrived_le u dur _
  · rw [Function.iterate_succ_apply']
    exact QueueModel.step_completed_mono u dur _

/-- C4: the queue discipline is strictly FIFO.  After any number of ticks the
queue is the contiguous block of not-yet-dequeued store indices (arrivals are
appended at the tail, a dispatching server removes the head), and whenever a
later customer `j` has been dequeued, every earlier customer `i < j` has been
dequeued too, with a recorded service-entry tick that is not later than
`j`'s. -/
theorem C4_fifo_order (u : ℕ → ℚ) (dur : ℕ → ℕ → ℚ) (rate svc : ℚ) (ns mt : ℤ)
    (n i j : ℕ) (hij : i < j)
    (hjlen : j < ((QueueModel.step u dur)^[n]
      (QueueModel.init rate svc ns mt)).customers.length)
    (hjq : j ∉ ((QueueModel.step u dur)^[n] (QueueModel.init rate svc ns mt)).queue) :
    (∃ kk, ((QueueModel.step u dur)^[n] (QueueModel.init rate svc ns mt)).queue
        = List.range' kk (((QueueModel.step u dur)^[n]
            (QueueModel.init rate svc ns mt)).queue.length)) ∧
    i ∉ ((QueueModel.step u dur)^[n] (QueueModel.init rate svc ns mt)).queue ∧
    ∃ ti tj,
      (((QueueModel.step u dur)^[n]
          (QueueModel.init rate svc ns mt)).customers.getD i default).time_entered_service
        = some ti ∧
      (((QueueModel.step u dur)^[n]
          (QueueModel.init rate svc ns mt)).customers.getD j default).time_entered_service
        = some tj ∧
      ti ≤ tj := by
  obtain ⟨k, hinv⟩ := iterate_inv u dur rate svc ns mt n
  obtain ⟨hk, hq, -, -, -, hts, hfifo, -, -⟩ := hinv
  have hjk : j < k := by
    by_contra hge
    apply hjq
    rw [hq, mem_range'_iff]
    omega
  have hik : i < k := by omega
  refine ⟨⟨k, hq⟩, ?_, ?_⟩
  · rw [hq, mem_range'_iff]
    omega
  · obtain ⟨ti, hti1, -, -⟩ := hts i hik
    obtain ⟨tj, htj1, -, -⟩ := hts j hjk
    refine ⟨ti, tj, hti1, htj1, ?_⟩
    have hd := hfifo i j (le_of_lt hij) hjk
    unfold dispatchTick at hd
    rw [hti1, htj1] at hd
    simpa using hd

theorem C4_fifo_order_witness :
    ((0 : ℕ) < 1) ∧
    (1 < ((QueueModel.step Scenario.uThrice Scenario.dTwo)^[5]
        (QueueModel.init 1 (67/100) 1 5)).customers.length ∧
     1 ∉ ((QueueModel.step Scenario.uThrice Scenario.dTwo)^[5]
        (QueueModel.init 1 (67/100) 1 5)).queue) ∧
    ((∃ kk, ((QueueModel.step Scenario.uThrice Scenario.dTwo)^[5]
          (QueueModel.init 1 (67/100) 1 5)).queue
        = List.range' kk (((QueueModel.step Scenario.uThrice Scenario.dTwo)^[5]
            (QueueModel.init 1 (67/100) 1 5)).queue.length)) ∧
     0 ∉ ((QueueModel.step Scenario.uThrice Scenario.dTwo)^[5]
        (QueueModel.init 1 (67/100) 1 5)).queue ∧
     ∃ ti tj,
       (((QueueModel.step Scenario.uThrice Scenario.dTwo)^[5]
           (QueueModel.init 1 (67/100) 1 5)).customers.getD 0 default).time_entered_service
         = some ti ∧
       (((QueueModel.step Scenario.uThrice Scenario.dTwo)^[5]
           (QueueModel.init 1 (67/100) 1 5)).customers.getD 1 default).time_entered_service
         = some tj ∧
       ti ≤ tj) :=
  ⟨by decide,
   ⟨by rw [Scenario.iterA5]; decide, by rw [Scenario.iterA5]; decide⟩,
   C4_fifo_order Scenario.uThrice Scenario.dTwo 1 (67/100) 1 5 5 0 1 (by decide)
     (by rw [Scenario.iterA5]; decide) (by rw [Scenario.iterA5]; decide)⟩

/-! ### The totals invariant of `implementacion2.py`

`implementacion2.py`'s `Server.step` has the same dispatch/completion logic
as `implementacion.py` (only the shared `throughput` counter differs), so the
wait/sojourn totals obey the same invariant.  The development below mirrors
the `implementacion.py` one, restricted to the parts the totals need. -/

namespace Implementacion2

open Implementacion (getD_set_ne getD_set_self getD_append_left getD_append_length
  mem_range'_iff)

/-- The totals invariant of `implementacion2.py`; `k` is the dequeue
frontier, as for `implementacion.py`. -/
structure Inv2 (svs : List Server) (s : QueueSimulation) (k : ℕ) : Prop where
  hk : k + s.queue.length = s.clients.length
  hq : s.queue = List.range' k s.queue.length
  hheld : ∀ sv ∈ svs, ∀ i, sv.active_customer = some i → i < k
  hts : ∀ i < k, ∃ v, (s.clients.getD i default).service_start_time = some v ∧
      (s.clients.getD i default).queue_entry_time ≤ v ∧ v ≤ s.time
  harrtime : ∀ i < s.clients.length,
      (s.clients.getD i default).queue_entry_time ≤ s.time
  htot : 0 ≤ s.total_time_queue ∧ s.total_time_queue ≤ s.total_time_system

/-- The invariant over a state's own server list. -/
def Inv2State (s : QueueSimulation) (k : ℕ) : Prop := Inv2 s.servers s k

/-- How the running time totals may move in one step. -/
def TotalsStep2 (s s' : QueueSimulation) : Prop :=
  s.total_time_queue ≤ s'.total_time_queue ∧
  s'.total_time_queue + s.total_time_system
    ≤ s'.total_time_system + s.total_time_queue

theorem totalsStep2_self (s : QueueSimulation) : TotalsStep2 s s :=
  ⟨le_refl _, by omega⟩

theorem totals2_comp {s s' s'' : QueueSimulation} (h : TotalsStep2 s s')
    (h' : TotalsStep2 s' s'') : TotalsStep2 s s'' := by
  obtain ⟨a1, a2⟩ := h
  obtain ⟨b1, b2⟩ := h'
  exact ⟨a1.trans b1, by omega⟩

theorem init_inv2 (rate svc : ℚ) (ns mt : ℤ) :
    Inv2State (QueueSimulation.init rate svc ns mt) 0 := by
  refine ⟨rfl, rfl, ?_, ?_, ?_, ⟨le_refl _, le_refl _⟩⟩
  · intro sv hsv i hi
    obtain ⟨_, _, rfl⟩ := List.mem_map.1 hsv
    exact absurd hi (by simp)
  · intro i hi
    omega
  · intro i hi
    simp [QueueSimulation.init] at hi

theorem completion_inv2 {l1 l2 : List Server} {sv : Server} {s : QueueSimulation}
    {k : ℕ} {ci : ℕ} (h : Inv2 (l1 ++ sv :: l2) s k)
    (hc : sv.active_customer = some ci) (t : ℕ) (ht : t = s.time) :
    Inv2 (l1 ++ { sv with active_customer := none } :: l2)
      { s with
          total_time_system := s.total_time_system
            + ((t : ℤ) - ((s.clients.getD ci default).queue_entry_time : ℤ)),
          total_time_queue := s.total_time_queue
            + (((s.clients.getD ci default).service_start_time.getD 0 : ℤ)
                - ((s.clients.getD ci default).queue_entry_time : ℤ)),
          throughput := s.throughput + 1 } k
    ∧ TotalsStep2 s
      { s with
          total_time_system := s.total_time_system
            + ((t : ℤ) - ((s.clients.getD ci default).queue_entry_time : ℤ)),
          total_time_queue := s.total_time_queue
            + (((s.clients.getD ci default).service_start_time.getD 0 : ℤ)
                - ((s.clients.getD ci default).queue_entry_time : ℤ)),
          throughput := s.throughput + 1 } := by
  subst ht
  obtain ⟨hk, hq, hheld, hts, harrtime, htot⟩ := h
  have hci : ci < k := hheld sv (by simp) ci hc
  obtain ⟨v, hv1, hv2, hv3⟩ := hts ci hci
  have htotq : ((s.clients.getD ci default).service_start_time.getD 0 : ℤ)
      = (v : ℤ) := by rw [hv1]; rfl
  obtain ⟨ht1, ht2⟩ := htot
  constructor
  · refine ⟨hk, hq, ?_, hts, harrtime, ?_⟩
    · intro sv' hmem i hi
      rcases List.mem_append.1 hmem with h1 | h2
      · exact hheld sv' (List.mem_append_left _ h1) i hi
      · rcases List.mem_cons.1 h2 with rfl | h3
        · simp at hi
        · exact hheld sv' (List.mem_append_right _ (List.mem_cons_of_mem _ h3)) i hi
    · dsimp only
      rw [htotq]
      omega
  · unfold TotalsStep2
    dsimp only
    rw [htotq]
    omega

theorem dispatch_inv2 {l1 l2 : List Server} {sv : Server} {s : QueueSimulation}
    {k : ℕ} {qh : ℕ} {qtl : List ℕ} (h : Inv2 (l1 ++ sv :: l2) s k)
    (hqe : s.queue = qh :: qtl) (hc : sv.active_customer = none)
    (t : ℕ) (ht : t = s.time) (d : ℚ) :
    qh = k ∧
    Inv2 (l1 ++ { active_customer := some qh,
                  completion_time := (t : ℚ) + d } :: l2)
      { s with
          queue := qtl,
          clients := s.clients.set qh
            { s.clients.getD qh default with service_start_time := some t } }
      (k + 1) := by
  subst ht
  obtain ⟨hk, hq, hheld, hts, harrtime, htot⟩ := h
  have hlen : s.queue.length = qtl.length + 1 := by rw [hqe]; rfl
  rw [hqe] at hq
  simp only [List.length_cons] at hq
  rw [List.range'_succ] at hq
  injection hq with h1 h2
  subst h1
  have klen : qh < s.clients.length := by omega
  refine ⟨rfl, ?_, h2, ?_, ?_, ?_, htot⟩
  · dsimp only
    rw [List.length_set]
    omega
  · intro sv' hmem i hi
    rcases List.mem_append.1 hmem with hm1 | hm2
    · exact Nat.lt_succ_of_lt (hheld sv' (List.mem_append_left _ hm1) i hi)
    · rcases List.mem_cons.1 hm2 with rfl | hm3
      · simp only at hi
        injection hi with hi
        omega
      · exact Nat.lt_succ_of_lt
          (hheld sv' (List.mem_append_right _ (List.mem_cons_of_mem _ hm3)) i hi)
  · intro i hi
    dsimp only
    by_cases hik : i < qh
    · rw [getD_set_ne _ (by omega : qh ≠ i)]
      exact hts i hik
    · have : i = qh := by omega
      subst this
      rw [getD_set_self _ klen]
      exact ⟨s.time, rfl, harrtime i klen, le_refl _⟩
  · intro i hi
    dsimp only at hi ⊢
    rw [List.length_set] at hi
    by_cases hik : i = qh
    · subst hik
      rw [getD_set_self _ klen]
      exact harrtime i klen
    · rw [getD_set_ne _ (by omega : qh ≠ i)]
      exact harrtime i hi

theorem Server.step_inv2 (t : ℕ) (d : ℚ) (l1 l2 : List Server) {sv : Server}
    {s : QueueSimulation} {k : ℕ} (h : Inv2 (l1 ++ sv :: l2) s k) (ht : t = s.time) :
    ∃ k', k ≤ k' ∧
      Inv2 (l1 ++ (Server.step t d sv s).1 :: l2) (Server.step t d sv s).2 k' ∧
      TotalsStep2 s (Server.step t d sv s).2 := by
  unfold Server.step
  rcases hqe : s.queue with _ | ⟨qh, qtl⟩ <;> rcases hc : sv.active_customer with _ | ci
  · simp only [hqe, hc]
    exact ⟨k, le_refl _, h, totalsStep2_self s⟩
  · simp only [hqe, hc]
    by_cases hle : sv.completion_time ≤ (t : ℚ)
    · rw [if_pos hle]
      obtain ⟨hi, htot⟩ := completion_inv2 h hc t ht
      rw [hqe] at hi htot
      exact ⟨k, le_refl _, hi, htot⟩
    · rw [if_neg hle]
      exact ⟨k, le_refl _, h, totalsStep2_self s⟩
  · simp only [hqe, hc]
    obtain ⟨hqh, hinv⟩ := dispatch_inv2 h hqe hc t ht d
    by_cases hle : ((t : ℚ) + d) ≤ (t : ℚ)
    · rw [if_pos hle]
      obtain ⟨hi, htot⟩ := completion_inv2 hinv rfl t ht
      exact ⟨k + 1, Nat.le_succ k, hi, htot⟩
    · rw [if_neg hle]
      exact ⟨k + 1, Nat.le_succ k, hinv, totalsStep2_self s⟩
  · simp only [hqe, hc]
    by_cases hle : sv.completion_time ≤ (t : ℚ)
    · rw [if_pos hle]
      obtain ⟨hi, htot⟩ := completion_inv2 h hc t ht
      rw [hqe] at hi htot
      exact ⟨k, le_refl _, hi, htot⟩
    · rw [if_neg hle]
      exact ⟨k, le_refl _, h, totalsStep2_self s⟩

theorem stepServerList_inv2 (dur : ℕ → ℕ → ℚ) (t : ℕ) :
    ∀ (todo done : List Server) (si : ℕ) (s : QueueSimulation) (k : ℕ),
      Inv2 (done ++ todo) s k → t = s.time →
      ∃ k', k ≤ k' ∧
        Inv2 (done ++ (stepServerList dur t si todo s).1)
          (stepServerList dur t si todo s).2 k' ∧
        TotalsStep2 s (stepServerList dur t si todo s).2 := by
  intro todo
  induction todo with
  | nil =>
      intro done si s k h ht
      exact ⟨k, le_refl _, by simpa [stepServerList] using h, totalsStep2_self s⟩
  | cons sv tl ih =>
      intro done si s k h ht
      obtain ⟨k1, hk1, hinv1, htot1⟩ :=
        Server.step_inv2 t (dur si t) done tl h ht
      have ht1 : t = (Server.step t (dur si t) sv s).2.time := by
        rw [(Server.step_frame2 t (dur si t) sv s).time]
        exact ht
      have hre : done ++ (Server.step t (dur si t) sv s).1 :: tl
          = (done ++ [(Server.step t (dur si t) sv s).1]) ++ tl := by simp
      rw [hre] at hinv1
      obtain ⟨k2, hk2, hinv2, htot2⟩ :=
        ih (done ++ [(Server.step t (dur si t) sv s).1]) (si + 1)
          (Server.step t (dur si t) sv s).2 k1 hinv1 ht1
      refine ⟨k2, hk1.trans hk2, ?_, totals2_comp htot1 htot2⟩
      rw [stepServerList]
      simpa using hinv2

theorem Client.cstep_of_not_mem (t : ℕ) {q : List ℕ} {i : ℕ} (c : Client)
    (h : i ∉ q) : Client.step t q i c = c := by
  unfold Client.step
  rw [if_neg]
  rintro ⟨-, hmem⟩
  exact h hmem

theorem Client.cstep_tq (t : ℕ) (q : List ℕ) (i : ℕ) (c : Client) :
    (Client.step t q i c).queue_entry_time = c.queue_entry_time := by
  unfold Client.step
  split <;> rfl

theorem stepClients_length (t : ℕ) (q : List ℕ) :
    ∀ (cs : List Client) (i0 : ℕ), (stepClients t q i0 cs).length = cs.length := by
  intro cs
  induction cs with
  | nil => intro i0; rfl
  | cons c tl ih => intro i0; simp [stepClients, ih]

theorem stepClients_getD (t : ℕ) (q : List ℕ) :
    ∀ (cs : List Client) (i0 j : ℕ), j < cs.length →
      (stepClients t q i0 cs).getD j default
        = Client.step t q (i0 + j) (cs.getD j default) := by
  intro cs
  induction cs with
  | nil =>
      intro i0 j hj
      simp at hj
  | cons c tl ih =>
      intro i0 j hj
      cases j with
      | zero => simp [stepClients]
      | succ j =>
          simp only [stepClients, List.getD_cons_succ]
          rw [ih (i0 + 1) j (by simpa using hj)]
          have harg : i0 + 1 + j = i0 + (j + 1) := by omega
          rw [harg]

theorem clients_time_wrap_inv2 {svs newsvs : List Server} {s : QueueSimulation} {k : ℕ}
    (h : Inv2 svs s k) (t : ℕ) (ht : t = s.time) :
    Inv2 svs
      { s with
        servers := newsvs,
        clients := stepClients t s.queue 0 s.clients,
        time := t + 1 } k := by
  subst ht
  obtain ⟨hk, hq, hheld, hts, harrtime, htot⟩ := h
  have hnotmem : ∀ i, i < k → i ∉ s.queue := by
    intro i hi hmem
    rw [hq] at hmem
    rw [mem_range'_iff] at hmem
    omega
  have hsame : ∀ i, i < k →
      (stepClients s.time s.queue 0 s.clients).getD i default
        = s.clients.getD i default := by
    intro i hi
    have hilen : i < s.clients.length := by omega
    rw [stepClients_getD s.time s.queue s.clients 0 i hilen]
    simpa using Client.cstep_of_not_mem s.time _ (hnotmem i hi)
  refine ⟨?_, hq, hheld, ?_, ?_, htot⟩
  · dsimp only
    rw [stepClients_length]
    exact hk
  · intro i hi
    dsimp only
    rw [hsame i hi]
    obtain ⟨v, hv1, hv2, hv3⟩ := hts i hi
    exact ⟨v, hv1, hv2, by omega⟩
  · intro i hi
    dsimp only at hi ⊢
    rw [stepClients_length] at hi
    rw [stepClients_getD s.time s.queue s.clients 0 i hi]
    rw [Client.cstep_tq]
    have := harrtime i hi
    omega

theorem arrival_inv2 {s : QueueSimulation} {k : ℕ} (h : Inv2State s k) :
    Inv2State
      { s with
        clients := s.clients
          ++ [{ queue_entry_time := s.time, service_start_time := none }],
        queue := s.queue ++ [s.clients.length],
        throughput := s.throughput + 1 } k := by
  obtain ⟨hk, hq, hheld, hts, harrtime, htot⟩ := h
  refine ⟨?_, ?_, hheld, ?_, ?_, htot⟩
  · dsimp only
    rw [List.length_append, List.length_append]
    simp
    omega
  · dsimp only
    rw [List.length_append]
    simp only [List.length_singleton]
    rw [List.range'_concat]
    rw [← hq]
    have : k + 1 * s.queue.length = s.clients.length := by omega
    rw [this]
  · intro i hi
    dsimp only
    rw [getD_append_left (by omega)]
    exact hts i hi
  · intro i hi
    dsimp only at hi ⊢
    rw [List.length_append] at hi
    simp only [List.length_singleton] at hi
    by_cases hilen : i < s.clients.length
    · rw [getD_append_left hilen]
      exact harrtime i hilen
    · have : i = s.clients.length := by omega
      subst this
      rw [getD_append_length]

theorem QueueSimulation.scheduleStep_inv2 (dur : ℕ → ℕ → ℚ) {s : QueueSimulation}
    {k : ℕ} (h : Inv2State s k) :
    ∃ k', k ≤ k' ∧ Inv2State (s.scheduleStep dur) k'
      ∧ TotalsStep2 s (s.scheduleStep dur) := by
  obtain ⟨k', hk', hinv, htot⟩ :=
    stepServerList_inv2 dur s.time s.servers [] 0 s k (by simpa using h) rfl
  have hinv' : Inv2 (stepServerList dur s.time 0 s.servers s).1
      (stepServerList dur s.time 0 s.servers s).2 k' := by simpa using hinv
  have htime : s.time = (stepServerList dur s.time 0 s.servers s).2.time :=
    ((stepServerList_frame2 dur s.time 0 s.servers s).time).symm
  exact ⟨k', hk', clients_time_wrap_inv2 hinv' s.time htime, htot⟩

theorem QueueSimulation.sim_step_inv2 (u : ℕ → ℚ) (dur : ℕ → ℕ → ℚ) {s : QueueSimulation}
    {k : ℕ} (h : Inv2State s k) :
    ∃ k', k ≤ k' ∧ Inv2State (s.step u dur) k' ∧ TotalsStep2 s (s.step u dur) := by
  unfold QueueSimulation.step
  by_cases hg : (s.time : ℤ) < s.max_steps
  · rw [if_pos hg]
    by_cases ha : u s.time < s.mean_arrival_rate
    · simp only [if_pos ha]
      exact QueueSimulation.scheduleStep_inv2 dur (arrival_inv2 h)
    · simp only [if_neg ha]
      exact QueueSimulation.scheduleStep_inv2 dur h
  · rw [if_neg hg]
    exact ⟨k, le_refl _, h, totalsStep2_self s⟩

theorem iterate_inv2 (u : ℕ → ℚ) (dur : ℕ → ℕ → ℚ) (rate svc : ℚ) (ns mt : ℤ) :
    ∀ n : ℕ, ∃ k,
      Inv2State ((QueueSimulation.step u dur)^[n]
        (QueueSimulation.init rate svc ns mt)) k := by
  intro n
  induction n with
  | zero => exact ⟨0, init_inv2 rate svc ns mt⟩
  | succ n ih =>
      obtain ⟨k, hk⟩ := ih
      obtain ⟨k', -, hinv, -⟩ := QueueSimulation.sim_step_inv2 u dur hk
      rw [Function.iterate_succ_apply']
      exact ⟨k', hinv⟩

end Implementacion2

/-- C10: at every point during a run of either variant, the accumulated total
time in queue is non-negative and at most the accumulated total time in
system, and across every tick both totals are non-decreasing with the wait
total increasing by no more than the sojourn total (each completion adds a
wait of `service_start − arrival`, which is between 0 and the added sojourn
`completion tick − arrival`). -/
theorem C10_wait_le_sojourn_totals (u : ℕ → ℚ) (dur : ℕ → ℕ → ℚ) (rate svc : ℚ)
    (ns mt : ℤ) (n : ℕ) :
    (0 ≤ ((QueueModel.step u dur)^[n]
        (QueueModel.init rate svc ns mt)).total_time_in_queue ∧
     ((QueueModel.step u dur)^[n]
        (QueueModel.init rate svc ns mt)).total_time_in_queue
       ≤ ((QueueModel.step u dur)^[n]
        (QueueModel.init rate svc ns mt)).total_time_in_system ∧
     ((QueueModel.step u dur)^[n]
        (QueueModel.init rate svc ns mt)).total_time_in_queue
       ≤ ((QueueModel.step u dur)^[n + 1]
        (QueueModel.init rate svc ns mt)).total_time_in_queue ∧
     ((QueueModel.step u dur)^[n + 1]
          (QueueModel.init rate svc ns mt)).total_time_in_queue
        + ((QueueModel.step u dur)^[n]
          (QueueModel.init rate svc ns mt)).total_time_in_system
       ≤ ((QueueModel.step u dur)^[n + 1]
          (QueueModel.init rate svc ns mt)).total_time_in_system
        + ((QueueModel.step u dur)^[n]
          (QueueModel.init rate svc ns mt)).total_time_in_queue) ∧
    (0 ≤ ((QueueSimulation.step u dur)^[n]
        (QueueSimulation.init rate svc ns mt)).total_time_queue ∧
     ((QueueSimulation.step u dur)^[n]
        (QueueSimulation.init rate svc ns mt)).total_time_queue
       ≤ ((QueueSimulation.step u dur)^[n]
        (QueueSimulation.init rate svc ns mt)).total_time_system ∧
     ((QueueSimulation.step u dur)^[n]
        (QueueSimulation.init rate svc ns mt)).total_time_queue
       ≤ ((QueueSimulation.step u dur)^[n + 1]
        (QueueSimulation.init rate svc ns mt)).total_time_queue ∧
     ((QueueSimulation.step u dur)^[n + 1]
          (QueueSimulation.init rate svc ns mt)).total_time_queue
        + ((QueueSimulation.step u dur)^[n]
          (QueueSimulation.init rate svc ns mt)).total_time_system
       ≤ ((QueueSimulation.step u dur)^[n + 1]
          (QueueSimulation.init rate svc ns mt)).total_time_system
        + ((QueueSimulation.step u dur)^[n]
          (QueueSimulation.init rate svc ns mt)).total_time_queue) := by
  constructor
  · obtain ⟨k, hinv⟩ := Implementacion.iterate_inv u dur rate svc ns mt n
    obtain ⟨k', -, -, htot⟩ := QueueModel.model_step_inv u dur hinv
    obtain ⟨ht1, ht2⟩ := hinv.htot
    obtain ⟨hs1, hs2⟩ := htot
    rw [Function.iterate_succ_apply']
    exact ⟨ht1, ht2, hs1, hs2⟩
  · obtain ⟨k, hinv⟩ := Implementacion2.iterate_inv2 u dur rate svc ns mt n
    obtain ⟨k', -, -, htot⟩ := QueueSimulation.sim_step_inv2 u dur hinv
    obtain ⟨ht1, ht2⟩ := hinv.htot
    obtain ⟨hs1, hs2⟩ := htot
    rw [Function.iterate_succ_apply']
    exact ⟨ht1, ht2, hs1, hs2⟩

/-- C8: with one server, arrival probability 1 (every uniform draw, being in
[0, 1), is below the rate, so a customer arrives every tick) and any
`mean_service_time` whose drawn service durations all exceed the five-tick
horizon (every exponential draw greater than 4), a five-tick run admits
exactly 5 customers, completes none, and `run_simulation` reports both
`avg_time_in_queue` and `avg_time_in_system` as the sentinel 0. -/
theorem C8_no_completion_scenario (u : ℕ → ℚ) (dur : ℕ → ℕ → ℚ) (svc : ℚ)
    (hu : ∀ t, u t < 1) (hd : ∀ si t, (4 : ℚ) < dur si t) :
    ((QueueModel.step u dur)^[5] (QueueModel.init 1 svc 1 5)).total_queue_throughput = 5 ∧
    ((QueueModel.step u dur)^[5] (QueueModel.init 1 svc 1 5)).total_system_throughput = 0 ∧
    (QueueModel.run_simulation u dur (QueueModel.init 1 svc 1 5)).avg_time_in_queue = 0 ∧
    (QueueModel.run_simulation u dur (QueueModel.init 1 svc 1 5)).avg_time_in_system = 0 := by
  have hcn : ∀ q : ℚ, q ≤ 4 → ¬ dur 0 0 ≤ q := by
    intro q hq hle
    have := hd 0 0
    linarith
  have h1 : QueueModel.step u dur (QueueModel.init 1 svc 1 5) =
      { mean_arrival_rate := 1, mean_service_time := svc, number_of_servers := 1,
        max_ticks := 5, time := 1,
        customers := [{ time_entered_queue := 0, time_entered_service := some 0 }],
        queue := [],
        servers := [{ customer_being_served := some 0, next_completion_time := dur 0 0 }],
        total_time_in_queue := 0, total_time_in_system := 0,
        total_queue_throughput := 1, total_system_throughput := 0 } := by
    norm_num [QueueModel.step, QueueModel.scheduleStep, Implementacion.stepServerList,
      ServerAgent.step, Implementacion.stepCustomers, CustomerAgent.step,
      QueueModel.init, hu 0, hcn 0 (by norm_num)]
  have h2 : QueueModel.step u dur
      { mean_arrival_rate := 1, mean_service_time := svc, number_of_servers := 1,
        max_ticks := 5, time := 1,
        customers := [{ time_entered_queue := 0, time_entered_service := some 0 }],
        queue := [],
        servers := [{ customer_being_served := some 0, next_completion_time := dur 0 0 }],
        total_time_in_queue := 0, total_time_in_system := 0,
        total_queue_throughput := 1, total_system_throughput := 0 } =
      { mean_arrival_rate := 1, mean_service_time := svc, number_of_servers := 1,
        max_ticks := 5, time := 2,
        customers := [{ time_entered_queue := 0, time_entered_service := some 0 },
                      { time_entered_queue := 1, time_entered_service := some 1 }],
        queue := [1],
        servers := [{ customer_being_served := some 0, next_completion_time := dur 0 0 }],
        total_time_in_queue := 0, total_time_in_system := 0,
        total_queue_throughput := 2, total_system_throughput := 0 } := by
    norm_num [QueueModel.step, QueueModel.scheduleStep, Implementacion.stepServerList,
      ServerAgent.step, Implementacion.stepCustomers, CustomerAgent.step,
      hu 1, hcn 1 (by norm_num)]
    all_goals decide
  have h3 : QueueModel.step u dur
      { mean_arrival_rate := 1, mean_service_time := svc, number_of_servers := 1,
        max_ticks := 5, time := 2,
        customers := [{ time_entered_queue := 0, time_entered_service := some 0 },
                      { time_entered_queue := 1, time_entered_service := some 1 }],
        queue := [1],
        servers := [{ customer_being_served := some 0, next_completion_time := dur 0 0 }],
        total_time_in_queue := 0, total_time_in_system := 0,
        total_queue_throughput := 2, total_system_throughput := 0 } =
      { mean_arrival_rate := 1, mean_service_time := svc, number_of_servers := 1,
        max_ticks := 5, time := 3,
        customers := [{ time_entered_queue := 0, time_entered_service := some 0 },
                      { time_entered_queue := 1, time_entered_service := some 1 },
                      { time_entered_queue := 2, time_entered_service := some 2 }],
        queue := [1, 2],
        servers := [{ customer_being_served := some 0, next_completion_time := dur 0 0 }],
        total_time_in_queue := 0, total_time_in_system := 0,
        total_queue_throughput := 3, total_system_throughput := 0 } := by
    norm_num [QueueModel.step, QueueModel.scheduleStep, Implementacion.stepServerList,
      ServerAgent.step, Implementacion.stepCustomers, CustomerAgent.step,
      hu 2, hcn 2 (by norm_num)]
    all_goals decide
  have h4 : QueueModel.step u dur
      { mean_arrival_rate := 1, mean_service_time := svc, number_of_servers := 1,
        max_ticks := 5, time := 3,
        customers := [{ time_entered_queue := 0, time_entered_service := some 0 },
                      { time_entered_queue := 1, time_entered_service := some 1 },
                      { time_entered_queue := 2, time_entered_service := some 2 }],
        queue := [1, 2],
        servers := [{ customer_being_served := some 0, next_completion_time := dur 0 0 }],
        total_time_in_queue := 0, total_time_in_system := 0,
        total_queue_throughput := 3, total_system_throughput := 0 } =
      { mean_arrival_rate := 1, mean_service_time := svc, number_of_servers := 1,
        max_ticks := 5, time := 4,
        customers := [{ time_entered_queue := 0, time_entered_service := some 0 },
                      { time_entered_queue := 1, time_entered_service := some 1 },
                      { time_entered_queue := 2, time_entered_service := some 2 },
                      { time_entered_queue := 3, time_entered_service := some 3 }],
        queue := [1, 2, 3],
        servers := [{ customer_being_served := some 0, next_completion_time := dur 0 0 }],
        total_time_in_queue := 0, total_time_in_system := 0,
        total_queue_throughput := 4, total_system_throughput := 0 } := by
    norm_num [QueueModel.step, QueueModel.scheduleStep, Implementacion.stepServerList,
      ServerAgent.step, Implementacion.stepCustomers, CustomerAgent.step,
      hu 3, hcn 3 (by norm_num)]
    all_goals decide
  have h5 : QueueModel.step u dur
      { mean_arrival_rate := 1, mean_service_time := svc, number_of_servers := 1,
        max_ticks := 5, time := 4,
        customers := [{ time_entered_queue := 0, time_entered_service := some 0 },
                      { time_entered_queue := 1, time_entered_service := some 1 },
                      { time_entered_queue := 2, time_entered_service := some 2 },
                      { time_entered_queue := 3, time_entered_service := some 3 }],
        queue := [1, 2, 3],
        servers := [{ customer_being_served := some 0, next_completion_time := dur 0 0 }],
        total_time_in_queue := 0, total_time_in_system := 0,
        total_queue_throughput := 4, total_system_throughput := 0 } =
      { mean_arrival_rate := 1, mean_service_time := svc, number_of_servers := 1,
        max_ticks := 5, time := 5,
        customers := [{ time_entered_queue := 0, time_entered_service := some 0 },
                      { time_entered_queue := 1, time_entered_service := some 1 },
                      { time_entered_queue := 2, time_entered_service := some 2 },
                      { time_entered_queue := 3, time_entered_service := some 3 },
                      { time_entered_queue := 4, time_entered_service := some 4 }],
        queue := [1, 2, 3, 4],
        servers := [{ customer_being_served := some 0, next_completion_time := dur 0 0 }],
        total_time_in_queue := 0, total_time_in_system := 0,
        total_queue_throughput := 5, total_system_throughput := 0 } := by
    norm_num [QueueModel.step, QueueModel.scheduleStep, Implementacion.stepServerList,
      ServerAgent.step, Implementacion.stepCustomers, CustomerAgent.step,
      hu 4, hcn 4 (by norm_num)]
    all_goals decide
  have hit : (QueueModel.step u dur)^[5] (QueueModel.init 1 svc 1 5)
      = QueueModel.step u dur (QueueModel.step u dur (QueueModel.step u dur
          (QueueModel.step u dur (QueueModel.step u dur
            (QueueModel.init 1 svc 1 5))))) := rfl
  rw [hit, h1, h2, h3, h4, h5]
  have hloop : QueueModel.run_simulation u dur (QueueModel.init 1 svc 1 5)
      = ((QueueModel.step u dur)^[5] (QueueModel.init 1 svc 1 5)).metrics := by
    unfold QueueModel.run_simulation
    rw [QueueModel.run_loop_init]
    rfl
  rw [hloop, hit, h1, h2, h3, h4, h5]
  refine ⟨rfl, rfl, ?_, ?_⟩ <;> norm_num [QueueModel.metrics]

theorem C8_no_completion_scenario_witness :
    ((QueueModel.step Scenario.uEvery Scenario.dBig)^[5]
        (QueueModel.init 1 (67/100) 1 5)).total_queue_throughput = 5 ∧
    ((QueueModel.step Scenario.uEvery Scenario.dBig)^[5]
        (QueueModel.init 1 (67/100) 1 5)).total_system_throughput = 0 ∧
    (QueueModel.run_simulation Scenario.uEvery Scenario.dBig
        (QueueModel.init 1 (67/100) 1 5)).avg_time_in_queue = 0 ∧
    (QueueModel.run_simulation Scenario.uEvery Scenario.dBig
        (QueueModel.init 1 (67/100) 1 5)).avg_time_in_system = 0 :=
  C8_no_completion_scenario Scenario.uEvery Scenario.dBig (67/100)
    (fun t => by norm_num [Scenario.uEvery])
    (fun si t => by norm_num [Scenario.dBig])
